import Mathlib

/-!
Verification of the recurrence-rule construction and validation engine of the
fixEcalendar repository.  The engine consists of:

* `buildRRuleFromPattern` (src/parser/calendar-extractor.ts, the current
  version taking a start time) — descriptor → serialized rule string;
* `RecurrenceValidator.validateRecurrencePattern` and
  `RecurrenceValidator.validateAndCap` (src/utils/recurrence-validator.ts);
* the textual repair chain applied to the CSV `Recurrence Pattern` field in
  `rowToEntry` (src/scripts/export-to-ical.ts).

Rule strings are modelled as `List Char`.  JavaScript regular-expression
scans are modelled by explicit left-to-right scanners over character lists.
Logging calls in the source are side-effect-free diagnostics and are omitted.
-/

set_option maxRecDepth 8000

namespace FixECal

/-- Decimal digit test; the model of the regex character class for digits. -/
def isDigitC (c : Char) : Bool := '0' ≤ c && c ≤ '9'

/-- Character list of a string literal; rule strings are computed on as `List Char`. -/
def lit (s : String) : List Char := s.toList

/-- Decimal rendering of a natural number with structural fuel, so that the
definition reduces inside the kernel.  `natDigitsAux f n` is the decimal digit
list of `n` whenever `n < f`. -/
def natDigitsAux : Nat → Nat → List Char
  | 0, _ => []
  | f + 1, n =>
    if n < 10 then [Nat.digitChar n]
    else natDigitsAux f (n / 10) ++ [Nat.digitChar (n % 10)]

/-- Decimal rendering of a natural number, as JavaScript `String(n)` renders it. -/
def natDigits (n : Nat) : List Char := natDigitsAux (n + 1) n

/-- Value of a digit list, as JavaScript `parseInt` computes it on all-digit input. -/
def digitsToNat (l : List Char) : Nat :=
  l.foldl (fun a c => 10 * a + (c.toNat - '0'.toNat)) 0

/-- Model of `String(n).padStart(2, '0')` for a natural number `n`. -/
def pad2 (n : Nat) : List Char :=
  if n < 10 then '0' :: natDigits n else natDigits n

/-- Decimal rendering of an integer, as JavaScript template interpolation renders it. -/
def intChars (i : Int) : List Char :=
  if i < 0 then '-' :: natDigits i.natAbs else natDigits i.toNat

/-- Calendar date triple standing for a JavaScript `Date`.  `month` is the
1-based calendar month, i.e. the source's `getMonth() + 1`; `day` is
`getDate()`; `year` is `getFullYear()`. -/
structure JSDate where
  year : Nat
  month : Nat
  day : Nat
deriving DecidableEq

/-- Gregorian leap-year test. -/
def isLeapYear (y : Nat) : Bool :=
  (y % 4 == 0 && y % 100 != 0) || y % 400 == 0

/-- Days in a calendar month (1-based month). -/
def daysInMonth (y m : Nat) : Nat :=
  if m == 2 then (if isLeapYear y then 29 else 28)
  else if m == 4 || m == 6 || m == 9 || m == 11 then 30
  else 31

/-- Model of `new Date(d)` followed by `setFullYear(y)` on the component triple
of a normalized `Date`: the month and day are kept, except that a day that does
not exist in the target year (February 29 in a non-leap year) overflows into
the next month, exactly as the JavaScript `Date` timestamp normalization does. -/
def jsSetFullYear (d : JSDate) (y : Nat) : JSDate :=
  if d.day ≤ daysInMonth y d.month then ⟨y, d.month, d.day⟩
  else ⟨y, d.month + 1, d.day - daysInMonth y d.month⟩

/-- Configuration for recurrence pattern validation
(src/utils/recurrence-validator.ts, `RecurrenceValidationConfig`). -/
structure RecurrenceValidationConfig where
  maxYearsDaily : Nat
  maxYearsWeekly : Nat
  maxYearsMonthly : Nat
  maxYearsYearly : Nat
  stripSingleOccurrence : Bool
  logAllChanges : Bool
deriving DecidableEq

/-- Default configuration for recurrence validation (`DEFAULT_CONFIG`). -/
def DEFAULT_CONFIG : RecurrenceValidationConfig :=
  ⟨5, 10, 20, 100, true, true⟩

/-- Partial configuration, modelling the `Partial<RecurrenceValidationConfig>`
argument of `RecurrenceValidator.setConfig`. -/
structure PartialValidationConfig where
  maxYearsDaily : Option Nat := none
  maxYearsWeekly : Option Nat := none
  maxYearsMonthly : Option Nat := none
  maxYearsYearly : Option Nat := none
  stripSingleOccurrence : Option Bool := none
  logAllChanges : Option Bool := none
deriving DecidableEq

/-- Model of `RecurrenceValidator.setConfig`: the configuration installed in
the static singleton is `{ ...DEFAULT_CONFIG, ...config }` — each field of the
partial argument overrides the default when present. -/
def setConfig (p : PartialValidationConfig) : RecurrenceValidationConfig :=
  ⟨p.maxYearsDaily.getD DEFAULT_CONFIG.maxYearsDaily,
   p.maxYearsWeekly.getD DEFAULT_CONFIG.maxYearsWeekly,
   p.maxYearsMonthly.getD DEFAULT_CONFIG.maxYearsMonthly,
   p.maxYearsYearly.getD DEFAULT_CONFIG.maxYearsYearly,
   p.stripSingleOccurrence.getD DEFAULT_CONFIG.stripSingleOccurrence,
   p.logAllChanges.getD DEFAULT_CONFIG.logAllChanges⟩

/-- The `patternTypeSpecific` field of a decoded `RecurrencePattern`
(pst-extractor): `null`, a day-of-month number, a Sun..Sat weekday flag array,
or a MonthNth record with a weekday flag array and an `nth` ordinal. -/
inductive PatternTypeSpecific where
  | null
  | num (n : Nat)
  | weekdays (w : List Bool)
  | monthNth (weekdays : List Bool) (nth : Nat)
deriving DecidableEq

/-- Decoded recurrence descriptor, the fields of pst-extractor's
`RecurrencePattern` that `buildRRuleFromPattern` and the validator read.
`recurFrequency` uses the MS-OXOCAL constants (Daily=8202, Weekly=8203,
Monthly=8204, Yearly=8205); `endType` uses AfterDate=8225, AfterCount=8226,
NeverEnd=8227; `period` is the raw interval (minutes for Daily, weeks/months
otherwise); a `period` or `occurrenceCount` of `0`/absent is JS-falsy. -/
structure RecurrencePattern where
  recurFrequency : Nat
  period : Nat
  patternType : Nat
  patternTypeSpecific : PatternTypeSpecific
  endType : Nat
  endDate : Option JSDate
  occurrenceCount : Option Nat
deriving DecidableEq

/-- Model of `RecurrenceValidator.getMaxYearsForFrequency`: per-frequency cap,
defaulting to the weekly cap for unknown frequency codes. -/
def getMaxYearsForFrequency (cfg : RecurrenceValidationConfig) (frequency : Nat) : Nat :=
  if frequency == 8202 then cfg.maxYearsDaily
  else if frequency == 8203 then cfg.maxYearsWeekly
  else if frequency == 8204 then cfg.maxYearsMonthly
  else if frequency == 8205 then cfg.maxYearsYearly
  else cfg.maxYearsWeekly

/-- RFC 5545 weekday codes in the Sun..Sat order used by the builder. -/
def dayNames : List (List Char) :=
  [lit "SU", lit "MO", lit "TU", lit "WE", lit "TH", lit "FR", lit "SA"]

/-- Model of `days.filter((_, i) => weekdays[i])`: the weekday codes whose flag
is set (an out-of-range index reads as JS `undefined`, which is falsy). -/
def selectedDays (w : List Bool) : List (List Char) :=
  (List.range 7).filterMap
    (fun i => if w.getD i false then some (dayNames.getD i []) else none)

/-- Model of `nthMap[monthNth.nth] || '1'` in the builder's MonthNth case. -/
def nthOrdinal (nth : Nat) : List Char :=
  if nth == 1 then lit "1"
  else if nth == 2 then lit "2"
  else if nth == 3 then lit "3"
  else if nth == 4 then lit "4"
  else if nth == 5 then lit "-1"
  else lit "1"

/-- Comma join, as `Array.prototype.join(',')`. -/
def joinComma (l : List (List Char)) : List Char := List.intercalate [','] l

/-- Semicolon join, as `rruleParts.join(';')`. -/
def joinSemi (l : List (List Char)) : List Char := List.intercalate [';'] l

/-- Frequency switch of `buildRRuleFromPattern`: the `FREQ` part pushed onto
`rruleParts` and the `isYearlyFrequency` flag.  Unknown codes fall into the
`default` branch and produce `FREQ=DAILY`. -/
def freqPart (p : RecurrencePattern) : List Char × Bool :=
  if p.recurFrequency == 8202 then (lit "FREQ=DAILY", false)
  else if p.recurFrequency == 8203 then (lit "FREQ=WEEKLY", false)
  else if p.recurFrequency == 8204 then (lit "FREQ=MONTHLY", false)
  else if p.recurFrequency == 8205 then (lit "FREQ=YEARLY", true)
  else (lit "FREQ=DAILY", false)

/-- Interval block of `buildRRuleFromPattern`: guarded by
`pattern.period && pattern.period > 1`; Daily periods are minutes
(`days = floor(period / 1440)`, emitted only when `days > 1`), a Yearly period
of 12 months is elided, and all other periods are emitted as-is. -/
def intervalParts (p : RecurrencePattern) : List (List Char) :=
  if p.period != 0 && p.period > 1 then
    if p.recurFrequency == 8202 then
      let days := p.period / 1440
      if days > 1 then [lit "INTERVAL=" ++ natDigits days] else []
    else if p.recurFrequency == 8205 && p.period == 12 then []
    else [lit "INTERVAL=" ++ natDigits p.period]
  else []

/-- Pattern-type block of `buildRRuleFromPattern`: the guard
`patternTypeSpecific !== null` followed by the `switch (pattern.patternType)`.
Week (1) emits `BYDAY`; Month (2) and MonthEnd (4) emit `BYMONTHDAY`, preceded
by `BYMONTH` (from the event start's month) when the frequency is Yearly;
MonthNth (3) emits ordinal-tagged `BYDAY`, preceded by `BYMONTH` when Yearly. -/
def shapeParts (p : RecurrencePattern) (startTime : JSDate)
    (isYearlyFrequency : Bool) : List (List Char) :=
  if p.patternTypeSpecific == .null then []
  else if p.patternType == 1 then
    match p.patternTypeSpecific with
    | .weekdays w =>
        let sel := selectedDays w
        if sel.isEmpty then [] else [lit "BYDAY=" ++ joinComma sel]
    | _ => []
  else if p.patternType == 2 || p.patternType == 4 then
    match p.patternTypeSpecific with
    | .num n =>
        (if isYearlyFrequency then [lit "BYMONTH=" ++ natDigits startTime.month] else [])
          ++ [lit "BYMONTHDAY=" ++ natDigits n]
    | _ => []
  else if p.patternType == 3 then
    match p.patternTypeSpecific with
    | .monthNth w nth =>
        if nth != 0 then
          let sel := selectedDays w
          let ordinal := nthOrdinal nth
          if sel.isEmpty then []
          else
            (if isYearlyFrequency then [lit "BYMONTH=" ++ natDigits startTime.month] else [])
              ++ [lit "BYDAY=" ++ joinComma (sel.map (fun d => ordinal ++ d))]
        else []
    | _ => []
  else []

/-- The `UNTIL` part produced by the AfterDate branch of the builder when the
COUNT preference did not fire: a corrupted end year (< 1900) is projected to
the 2100 sentinel and clamped to the frequency cap measured from the start
year; any year above 2100 is clamped to 2100; month and day come from the
(possibly corrupted) end date. -/
def sanitizedUntilPart (cfg : RecurrenceValidationConfig) (p : RecurrencePattern)
    (startTime : JSDate) (endDate : JSDate) : List Char :=
  let endYear1 :=
    if endDate.year < 1900 then
      let yearsSpan : Int := (2100 : Int) - (startTime.year : Int)
      let maxYears := getMaxYearsForFrequency cfg p.recurFrequency
      if yearsSpan > (maxYears : Int) then startTime.year + maxYears else 2100
    else endDate.year
  let endYear2 := if endYear1 > 2100 then 2100 else endYear1
  lit "UNTIL=" ++ natDigits endYear2 ++ pad2 endDate.month ++ pad2 endDate.day
    ++ lit "T235959Z"

/-- End-condition block of `buildRRuleFromPattern`: AfterDate (8225) prefers
`COUNT` when the end year is corrupted (< 1900) and `occurrenceCount` is
JS-truthy, `> 1` and `≤ 50`, otherwise emits the sanitized `UNTIL`;
AfterCount (8226) emits `COUNT` for a truthy positive count; NeverEnd (8227)
and unknown codes emit nothing. -/
def endParts (cfg : RecurrenceValidationConfig) (p : RecurrencePattern)
    (startTime : JSDate) : List (List Char) :=
  if p.endType == 8225 then
    match p.endDate with
    | some endDate =>
      match p.occurrenceCount with
      | some c =>
        if endDate.year < 1900 && c != 0 && c > 1 && c ≤ 50 then
          [lit "COUNT=" ++ natDigits c]
        else [sanitizedUntilPart cfg p startTime endDate]
      | none => [sanitizedUntilPart cfg p startTime endDate]
    | none => []
  else if p.endType == 8226 then
    match p.occurrenceCount with
    | some c => if c != 0 && c > 0 then [lit "COUNT=" ++ natDigits c] else []
    | none => []
  else []

/-- The list `rruleParts` accumulated by `buildRRuleFromPattern`, in push
order: the `RRULE` head, the frequency, the interval, the pattern-shape parts
and the end-condition parts.  The builder consults the validator's static
configuration through `getMaxYearsForFrequency`, passed here explicitly. -/
def buildRRuleParts (cfg : RecurrenceValidationConfig) (p : RecurrencePattern)
    (startTime : JSDate) : List (List Char) :=
  let fp := freqPart p
  [lit "RRULE", fp.1] ++ intervalParts p ++ shapeParts p startTime fp.2
    ++ endParts cfg p startTime

/-- Model of `buildRRuleFromPattern(pattern, startTime)`: the serialized rule,
`rruleParts.join(';')` (so the string carries the `RRULE;` head that
downstream consumers strip). -/
def buildRRuleFromPattern (cfg : RecurrenceValidationConfig) (p : RecurrencePattern)
    (startTime : JSDate) : List Char :=
  joinSemi (buildRRuleParts cfg p startTime)

/-! ### Regex scanners

JavaScript regular expressions used by the validator and the repair chain are
modelled as explicit left-to-right scanners: a head matcher decides whether the
pattern matches at the current position, and the scanner tries every position
from the left, exactly as the regex engine finds the leftmost match. -/

/-- Consume exactly `n` decimal digits from the front of a list, the model of
the fixed-width regex `\d{n}`: returns the digits and the remainder. -/
def takeDigits : Nat → List Char → Option (List Char × List Char)
  | 0, l => some ([], l)
  | _ + 1, [] => none
  | n + 1, c :: t =>
    if isDigitC c then (takeDigits n t).map (fun pr => (c :: pr.1, pr.2)) else none

/-- The literal `UNTIL=`. -/
def untilLit : List Char := lit "UNTIL="

/-- Head matcher for `UNTIL=` followed by eight digits (the shared core of the
regexes `UNTIL=(\d{8})` and `UNTIL=\d{8}(T\d{6}Z)?`): returns the eight digits
and the remainder after them. -/
def untilAt (l : List Char) : Option (List Char × List Char) :=
  if untilLit.isPrefixOf l then takeDigits 8 (l.drop 6) else none

/-- Leftmost match of `UNTIL=\d{8}`: returns the text before the match, the
eight digits, and the remainder after them.  Both source regexes
(`UNTIL=(\d{8})` for extraction and `UNTIL=\d{8}(T\d{6}Z)?` for replacement)
locate this same leftmost position, since the optional time-of-day group only
extends an already-found match to the right. -/
def untilSplit : List Char → Option (List Char × List Char × List Char)
  | [] => none
  | c :: t =>
    match untilAt (c :: t) with
    | some (d8, rest) => some ([], d8, rest)
    | none => (untilSplit t).map (fun pr => (c :: pr.1, pr.2.1, pr.2.2))

/-- Split an optional `T\d{6}Z` time-of-day suffix off the front of a list:
returns the consumed suffix (empty when absent) and the remainder.  This is
the optional group of the replacement regex `UNTIL=\d{8}(T\d{6}Z)?`. -/
def optTimeSplit (rest : List Char) : List Char × List Char :=
  match rest with
  | 'T' :: r1 =>
    match takeDigits 6 r1 with
    | some (d6, 'Z' :: r2) => ('T' :: (d6 ++ ['Z']), r2)
    | _ => ([], rest)
  | _ => ([], rest)

/-- Model of `rrule.replace(/UNTIL=\d{8}(T\d{6}Z)?/, repl)`: the leftmost
match (eight digits plus an optional time suffix) is replaced by `repl`; a
string without a match is returned unchanged. -/
def replaceUntilOpt (repl : List Char) : List Char → List Char
  | [] => []
  | c :: t =>
    match untilAt (c :: t) with
    | some (_, rest) => repl ++ (optTimeSplit rest).2
    | none => c :: replaceUntilOpt repl t

/-- Head matcher for the regex `UNTIL=\d{8}T\d{6}Z` (time suffix mandatory):
returns the remainder after the complete 22-character match. -/
def untilFullAt (l : List Char) : Option (List Char) :=
  match untilAt l with
  | some (_, 'T' :: r1) =>
    match takeDigits 6 r1 with
    | some (_, 'Z' :: r2) => some r2
    | _ => none
  | _ => none

/-- Model of `rrule.replace(/UNTIL=\d{8}T\d{6}Z/, repl)` used by
`rebuildRRuleWithCappedUntil`: leftmost full match replaced, no-match is the
identity. -/
def replaceUntilFull (repl : List Char) : List Char → List Char
  | [] => []
  | c :: t =>
    match untilFullAt (c :: t) with
    | some rest => repl ++ rest
    | none => c :: replaceUntilFull repl t

/-- Model of `RecurrenceValidator.rebuildRRuleWithCappedUntil`: replace the
`UNTIL=\d{8}T\d{6}Z` component with the capped end date at end-of-day. -/
def rebuildRRuleWithCappedUntil (rrule : List Char) (cappedEnd : JSDate) : List Char :=
  replaceUntilFull
    (untilLit ++ natDigits cappedEnd.year ++ pad2 cappedEnd.month ++ pad2 cappedEnd.day
      ++ lit "T235959Z") rrule

/-- Model of `RecurrenceValidator.validateRecurrencePattern(pattern, startTime,
subject, rrule)`.  The `subject` argument is used only in log messages and is
omitted; the informational check on daily intervals only logs and is omitted.
Returns `none` ("no recurrence") or the validated rule string. -/
def validateRecurrencePattern (cfg : RecurrenceValidationConfig)
    (pattern : RecurrencePattern) (startTime : JSDate)
    (rrule : Option (List Char)) : Option (List Char) :=
  match rrule with
  | none => none
  | some r =>
    if cfg.stripSingleOccurrence && pattern.occurrenceCount == some 1 then none
    else if pattern.endType == 8225 then
      match pattern.endDate with
      | some endDate =>
        let yearsSpan : Int := (endDate.year : Int) - (startTime.year : Int)
        let maxYears := getMaxYearsForFrequency cfg pattern.recurFrequency
        if yearsSpan > (maxYears : Int) then
          some (rebuildRRuleWithCappedUntil r
            (jsSetFullYear startTime (startTime.year + maxYears)))
        else some r
      | none => some r
    else some r

/-- Model of the extraction flow of `extractRecurrencePattern` around the
builder: `validateRecurrencePattern(pattern, startTime, subject,
buildRRuleFromPattern(pattern, startTime))`, with `null` and `undefined`
both modelled as `none`. -/
def engineRRule (cfg : RecurrenceValidationConfig) (p : RecurrencePattern)
    (startTime : JSDate) : Option (List Char) :=
  validateRecurrencePattern cfg p startTime (some (buildRRuleFromPattern cfg p startTime))

/-! ### validateAndCap -/

/-- The four textual frequencies of the regex
`FREQ=(DAILY|WEEKLY|MONTHLY|YEARLY)`. -/
inductive RFreq where
  | daily
  | weekly
  | monthly
  | yearly
deriving DecidableEq

/-- The keyword (the regex capture group) of a matched frequency. -/
def freqName : RFreq → List Char
  | .daily => lit "DAILY"
  | .weekly => lit "WEEKLY"
  | .monthly => lit "MONTHLY"
  | .yearly => lit "YEARLY"

/-- Head matcher for `FREQ=(DAILY|WEEKLY|MONTHLY|YEARLY)`, trying the
alternatives in the regex's order (they are mutually exclusive anyway). -/
def freqAt (l : List Char) : Option RFreq :=
  if (lit "FREQ=DAILY").isPrefixOf l then some .daily
  else if (lit "FREQ=WEEKLY").isPrefixOf l then some .weekly
  else if (lit "FREQ=MONTHLY").isPrefixOf l then some .monthly
  else if (lit "FREQ=YEARLY").isPrefixOf l then some .yearly
  else none

/-- Leftmost match of `FREQ=(DAILY|WEEKLY|MONTHLY|YEARLY)` in a rule string. -/
def findFreq : List Char → Option RFreq
  | [] => none
  | c :: t =>
    match freqAt (c :: t) with
    | some f => some f
    | none => findFreq t

/-- The per-frequency cap selected by the `switch (frequency)` inside
`validateAndCap` (its `default` branch is unreachable because the matched
frequency is always one of the four keywords). -/
def capFor (cfg : RecurrenceValidationConfig) : RFreq → Nat
  | .daily => cfg.maxYearsDaily
  | .weekly => cfg.maxYearsWeekly
  | .monthly => cfg.maxYearsMonthly
  | .yearly => cfg.maxYearsYearly

/-- The `action` field of a `ValidationResult`. -/
inductive VAction where
  | KEPT
  | STRIPPED
  | CAPPED
deriving DecidableEq

/-- Result of `RecurrenceValidator.validateAndCap`
(interface `ValidationResult`; `newPattern` is a string on every path of
`validateAndCap`, so it is not optional here). -/
structure ValidationResult where
  modified : Bool
  action : VAction
  newPattern : List Char
  newYearsSpan : Option Nat
  reason : List Char
deriving DecidableEq

/-- Model of `RecurrenceValidator.validateAndCap(rruleString, startTime,
subject)`: extract the frequency and the first eight-digit `UNTIL` date; when
the span from the start year to the `UNTIL` year exceeds the frequency's cap,
replace the `UNTIL` component (regex `UNTIL=\d{8}(T\d{6}Z)?`) with the capped
end date carrying the `T235959Z` suffix.  The `subject` argument only guards a
log message and is omitted. -/
def validateAndCap (cfg : RecurrenceValidationConfig) (rruleString : List Char)
    (startTime : JSDate) : ValidationResult :=
  match findFreq rruleString with
  | none =>
    ⟨false, .KEPT, rruleString, none, lit "No frequency found in RRULE"⟩
  | some frequency =>
    match untilSplit rruleString with
    | none =>
      ⟨false, .KEPT, rruleString, none,
        lit "No UNTIL date (COUNT-based or infinite recurrence)"⟩
    | some (_, d8, _) =>
      let untilYear := digitsToNat (d8.take 4)
      let yearsSpan : Int := (untilYear : Int) - (startTime.year : Int)
      let maxYears := capFor cfg frequency
      if yearsSpan > (maxYears : Int) then
        let cappedEnd := jsSetFullYear startTime (startTime.year + maxYears)
        let newPattern :=
          replaceUntilOpt
            (untilLit ++ natDigits cappedEnd.year ++ pad2 cappedEnd.month
              ++ pad2 cappedEnd.day ++ lit "T235959Z") rruleString
        ⟨true, .CAPPED, newPattern, some maxYears,
          freqName frequency ++ lit " recurrence span (" ++ intChars yearsSpan
            ++ lit " years) exceeds maximum (" ++ natDigits maxYears
            ++ lit " years)"⟩
      else
        ⟨false, .KEPT, rruleString, none,
          freqName frequency ++ lit " recurrence span (" ++ intChars yearsSpan
            ++ lit " years) is reasonable"⟩

/-! ### The textual repair chain of `rowToEntry` (export-to-ical.ts)

The CSV `Recurrence Pattern` field is pushed through a chain of regex fixes;
`startDate` is the CSV start-date string in `YYYY-MM-DD` form. -/

/-- Model of `String.prototype.includes(pat)` on character lists. -/
def containsL (pat : List Char) : List Char → Bool
  | [] => pat.isEmpty
  | c :: t => pat.isPrefixOf (c :: t) || containsL pat t

/-- Leftmost occurrence of a literal: `splitOnLit pat s = some (pre, post)`
when `s = pre ++ pat ++ post` at the first occurrence of `pat`. -/
def splitOnLit (pat : List Char) : List Char → Option (List Char × List Char)
  | [] => if pat.isEmpty then some ([], []) else none
  | c :: t =>
    if pat.isPrefixOf (c :: t) then some ([], (c :: t).drop pat.length)
    else (splitOnLit pat t).map (fun pr => (c :: pr.1, pr.2))

/-- Drop one leading semicolon, the optional `;?` tail of a match. -/
def dropOneSemi : List Char → List Char
  | ';' :: t => t
  | l => l

/-- Model of `replace(/;;/g, ';')`: non-overlapping double semicolons are
collapsed left to right. -/
def collapseDoubleSemi : List Char → List Char
  | ';' :: ';' :: t => ';' :: collapseDoubleSemi t
  | c :: t => c :: collapseDoubleSemi t
  | [] => []

/-- Model of `replace(/;;+/g, ';')`: each maximal run of two or more
semicolons becomes a single one.  Structural fuel (one unit per emitted
character) keeps the definition kernel-reducible; it is called with the
length of the list, which bounds the number of steps. -/
def collapseMultiSemiFuel : Nat → List Char → List Char
  | 0, l => l
  | _ + 1, [] => []
  | f + 1, ';' :: ';' :: t => ';' :: collapseMultiSemiFuel f (t.dropWhile (· == ';'))
  | f + 1, c :: t => c :: collapseMultiSemiFuel f t

/-- Run `collapseMultiSemiFuel` with sufficient fuel. -/
def collapseMultiSemi (l : List Char) : List Char := collapseMultiSemiFuel l.length l

/-- Model of `replace(/;$/, '')`: remove a single trailing semicolon. -/
def stripTrailingSemi (s : List Char) : List Char :=
  match s.getLast? with
  | some ';' => s.dropLast
  | _ => s

/-- Repair step 1: `FREQ=YEARLY` with `INTERVAL=12` — delete the first
occurrence of `INTERVAL=12` (regex `INTERVAL=12;?`, taking one following
semicolon with it) and collapse double semicolons. -/
def yearlyInterval12Fix (s : List Char) : List Char :=
  if containsL (lit "FREQ=YEARLY") s && containsL (lit "INTERVAL=12") s then
    match splitOnLit (lit "INTERVAL=12") s with
    | some (pre, post) => collapseDoubleSemi (pre ++ dropOneSemi post)
    | none => s
  else s

/-- Global scan of repair step 2, regex `UNTIL=(\d{8})(?!T)` replaced by
`UNTIL=$1T235959Z`: every eight-digit `UNTIL` not already followed by `T`
gains the end-of-day suffix.  The lookahead character is not consumed, and
replacement text is not rescanned, exactly as in the regex engine.  Fuel is
one unit per scan step, bounded by the list length. -/
def bareUntilScanFuel : Nat → List Char → List Char
  | 0, l => l
  | _ + 1, [] => []
  | f + 1, c :: t =>
    match untilAt (c :: t) with
    | some (d8, rest) =>
      match rest with
      | 'T' :: _ => c :: bareUntilScanFuel f t
      | _ => untilLit ++ d8 ++ lit "T235959Z" ++ bareUntilScanFuel f rest
    | none => c :: bareUntilScanFuel f t

/-- Repair step 2, guarded by `includes('UNTIL=')`. -/
def bareUntilFix (s : List Char) : List Char :=
  if containsL untilLit s then bareUntilScanFuel s.length s else s

/-- The literal `INTERVAL=`. -/
def intervalLit : List Char := lit "INTERVAL="

/-- Global scan of repair step 3, regex `INTERVAL=(\d+)` with the callback
`days = floor(minutes / 1440); days > 1 ? INTERVAL=days : ''`.  The digit run
is maximal, the callback's output is emitted verbatim and not rescanned. -/
def dailyIntervalScanFuel : Nat → List Char → List Char
  | 0, l => l
  | _ + 1, [] => []
  | f + 1, c :: t =>
    if intervalLit.isPrefixOf (c :: t) then
      let afterLit := (c :: t).drop 9
      let ds := afterLit.takeWhile isDigitC
      if ds.isEmpty then c :: dailyIntervalScanFuel f t
      else
        let days := digitsToNat ds / 1440
        (if days > 1 then intervalLit ++ natDigits days else [])
          ++ dailyIntervalScanFuel f (afterLit.drop ds.length)
    else c :: dailyIntervalScanFuel f t

/-- Repair step 3: for `FREQ=DAILY` with an `INTERVAL`, convert the interval
from minutes to days, then clean up `;;+` runs and a trailing semicolon. -/
def dailyIntervalFix (s : List Char) : List Char :=
  if containsL (lit "FREQ=DAILY") s && containsL intervalLit s then
    stripTrailingSemi (collapseMultiSemi (dailyIntervalScanFuel s.length s))
  else s

/-- Month number read from the CSV start date `YYYY-MM-DD`:
`parseInt(startDate.substring(5, 7))`. -/
def csvMonth (startDate : List Char) : Nat := digitsToNat ((startDate.drop 5).take 2)

/-- Start year read from the CSV start date via `new Date(startDate)`. -/
def csvYear (startDate : List Char) : Nat := digitsToNat (startDate.take 4)

/-- Repair step 4: `FREQ=YEARLY` with `BYMONTHDAY=` but no `BYMONTH=` —
insert `BYMONTH=<start month>;` before the first `BYMONTHDAY=`. -/
def yearlyByMonthDayFix (startDate : List Char) (s : List Char) : List Char :=
  if containsL (lit "FREQ=YEARLY") s && containsL (lit "BYMONTHDAY=") s then
    if containsL (lit "BYMONTH=") s then s
    else
      match splitOnLit (lit "BYMONTHDAY=") s with
      | some (pre, post) =>
        pre ++ lit "BYMONTH=" ++ natDigits (csvMonth startDate) ++ [';']
          ++ lit "BYMONTHDAY=" ++ post
      | none => s
  else s

/-- Repair step 5: `FREQ=YEARLY` with `BYDAY=` but no `BYMONTH=` — rewrite
the first `FREQ=YEARLY;?` into `FREQ=YEARLY;BYMONTH=<start month>;`. -/
def yearlyByDayFix (startDate : List Char) (s : List Char) : List Char :=
  if containsL (lit "FREQ=YEARLY") s && containsL (lit "BYDAY=") s
      && !containsL (lit "BYMONTH=") s then
    match splitOnLit (lit "FREQ=YEARLY") s with
    | some (pre, post) =>
      pre ++ lit "FREQ=YEARLY;BYMONTH=" ++ natDigits (csvMonth startDate) ++ [';']
        ++ dropOneSemi post
    | none => s
  else s

/-- Head matcher for the regex `UNTIL=2100\d{4}T\d{6}Z`: the remainder after
the full match. -/
def until2100At (l : List Char) : Option (List Char) :=
  if (lit "UNTIL=2100").isPrefixOf l then
    match takeDigits 4 (l.drop 10) with
    | some (_, 'T' :: r1) =>
      match takeDigits 6 r1 with
      | some (_, 'Z' :: r2) => some r2
      | _ => none
    | _ => none
  else none

/-- Model of `replace(/UNTIL=2100\d{4}T\d{6}Z/, repl)` (first match only). -/
def replace2100 (repl : List Char) : List Char → List Char
  | [] => []
  | c :: t =>
    match until2100At (c :: t) with
    | some rest => repl ++ rest
    | none => c :: replace2100 repl t

/-- Head matcher for `UNTIL=\d{4}(\d{4}T\d{6}Z)`: the captured
month-day-time suffix. -/
def untilSuffixAt (l : List Char) : Option (List Char) :=
  if untilLit.isPrefixOf l then
    match takeDigits 4 (l.drop 6) with
    | some (_, r1) =>
      match takeDigits 4 r1 with
      | some (d4b, 'T' :: r2) =>
        match takeDigits 6 r2 with
        | some (d6, 'Z' :: _) => some (d4b ++ 'T' :: (d6 ++ ['Z']))
        | _ => none
      | _ => none
    | _ => none
  else none

/-- Leftmost capture of `UNTIL=\d{4}(\d{4}T\d{6}Z)`. -/
def findUntilSuffix : List Char → Option (List Char)
  | [] => none
  | c :: t =>
    match untilSuffixAt (c :: t) with
    | some g => some g
    | none => findUntilSuffix t

/-- One frequency branch of repair step 6: when the evolving pattern contains
the frequency keyword and the span `2100 - startYear` exceeds `maxY`, rewrite
the first `UNTIL=2100\d{4}T\d{6}Z` to the capped year with the original
month-day-time suffix (or `1231T235959Z` when no suffix is found). -/
def until2100Branch (freqPat : List Char) (maxY : Nat) (startYear : Nat)
    (s : List Char) : List Char :=
  if containsL freqPat s && ((2100 : Int) - (startYear : Int) > (maxY : Int)) then
    let cappedYear := startYear + maxY
    let suffix := (findUntilSuffix s).getD (lit "1231T235959Z")
    replace2100 (untilLit ++ natDigits cappedYear ++ suffix) s
  else s

/-- Repair step 6: suspicious `UNTIL=2100` dates are capped per frequency
(Daily 5, Weekly 10, Monthly 20 years; Yearly is left alone), the three
branches applied in order to the evolving string. -/
def until2100Fix (startDate : List Char) (s : List Char) : List Char :=
  if containsL (lit "UNTIL=2100") s then
    let startYear := csvYear startDate
    let s1 := until2100Branch (lit "FREQ=DAILY") 5 startYear s
    let s2 := until2100Branch (lit "FREQ=WEEKLY") 10 startYear s1
    until2100Branch (lit "FREQ=MONTHLY") 20 startYear s2
  else s

/-- The Textual Repair Pass: the full chain of recurrence-pattern fixes that
`rowToEntry` applies to the CSV `Recurrence Pattern` field, in source order.
An empty pattern is JS-falsy and every step skips it, which the guards of the
individual steps already reproduce. -/
def repairRecurrencePattern (startDate : List Char) (s : List Char) : List Char :=
  until2100Fix startDate
    (yearlyByDayFix startDate
      (yearlyByMonthDayFix startDate
        (dailyIntervalFix
          (bareUntilFix
            (yearlyInterval12Fix s)))))

/-! ### Lemmas about decimal rendering -/

theorem natDigitsAux_congr (f : Nat) :
    ∀ g n, n < f → n < g → natDigitsAux f n = natDigitsAux g n := by
  induction f with
  | zero => intro g n h; omega
  | succ f ih =>
    intro g n hf hg
    cases g with
    | zero => omega
    | succ g =>
      by_cases h10 : n < 10
      · simp [natDigitsAux, h10]
      · have hdiv : n / 10 < n := Nat.div_lt_self (by omega) (by omega)
        simp only [natDigitsAux, h10, if_false]
        rw [ih g (n / 10) (by omega) (by omega)]

theorem natDigits_lt10 (n : Nat) (h : n < 10) : natDigits n = [Nat.digitChar n] := by
  simp [natDigits, natDigitsAux, h]

theorem natDigitsAux_succ (f n : Nat) :
    natDigitsAux (f + 1) n =
      if n < 10 then [Nat.digitChar n]
      else natDigitsAux f (n / 10) ++ [Nat.digitChar (n % 10)] := rfl

theorem natDigits_ge10 (n : Nat) (h : 10 ≤ n) :
    natDigits n = natDigits (n / 10) ++ [Nat.digitChar (n % 10)] := by
  have h1 : ¬ n < 10 := by omega
  have hdiv : n / 10 < n := Nat.div_lt_self (by omega) (by omega)
  unfold natDigits
  rw [natDigitsAux_succ, if_neg h1,
    natDigitsAux_congr n (n / 10 + 1) (n / 10) (by omega) (by omega)]

theorem digitChar_isDigit : ∀ n : Nat, n < 10 → isDigitC (Nat.digitChar n) = true := by
  decide

theorem digitChar_val : ∀ n : Nat, n < 10 → (Nat.digitChar n).toNat - '0'.toNat = n := by
  decide

theorem digitsToNat_append_singleton (l : List Char) (c : Char) :
    digitsToNat (l ++ [c]) = 10 * digitsToNat l + (c.toNat - '0'.toNat) := by
  simp [digitsToNat, List.foldl_append]

theorem digitsToNat_natDigits (n : Nat) : digitsToNat (natDigits n) = n := by
  induction n using Nat.strong_induction_on with
  | _ n ih =>
    by_cases h : n < 10
    · rw [natDigits_lt10 n h]
      show 10 * 0 + (Char.toNat (Nat.digitChar n) - Char.toNat '0') = n
      have hv := digitChar_val n h
      omega
    · rw [natDigits_ge10 n (by omega), digitsToNat_append_singleton,
        ih (n / 10) (Nat.div_lt_self (by omega) (by omega)),
        digitChar_val (n % 10) (Nat.mod_lt _ (by omega))]
      omega

theorem natDigits_all_digit (n : Nat) : ∀ c ∈ natDigits n, isDigitC c = true := by
  induction n using Nat.strong_induction_on with
  | _ n ih =>
    by_cases h : n < 10
    · rw [natDigits_lt10 n h]
      intro c hc
      simp at hc
      subst hc
      exact digitChar_isDigit n h
    · rw [natDigits_ge10 n (by omega)]
      intro c hc
      rcases List.mem_append.mp hc with h1 | h2
      · exact ih (n / 10) (Nat.div_lt_self (by omega) (by omega)) c h1
      · simp at h2
        subst h2
        exact digitChar_isDigit _ (Nat.mod_lt _ (by omega))

theorem natDigits_length_one (n : Nat) (h : n < 10) : (natDigits n).length = 1 := by
  rw [natDigits_lt10 n h]; rfl

theorem natDigits_length_two (n : Nat) (h1 : 10 ≤ n) (h2 : n ≤ 99) :
    (natDigits n).length = 2 := by
  rw [natDigits_ge10 n h1, List.length_append, natDigits_length_one (n / 10) (by omega)]
  rfl

theorem natDigits_length_three (n : Nat) (h1 : 100 ≤ n) (h2 : n ≤ 999) :
    (natDigits n).length = 3 := by
  rw [natDigits_ge10 n (by omega), List.length_append,
    natDigits_length_two (n / 10) (by omega) (by omega)]
  rfl

theorem natDigits_length_four (n : Nat) (h1 : 1000 ≤ n) (h2 : n ≤ 9999) :
    (natDigits n).length = 4 := by
  rw [natDigits_ge10 n (by omega), List.length_append,
    natDigits_length_three (n / 10) (by omega) (by omega)]
  rfl

theorem pad2_length (n : Nat) (h : n ≤ 99) : (pad2 n).length = 2 := by
  unfold pad2
  by_cases h10 : n < 10
  · simp [h10, natDigits_length_one n h10]
  · simp [h10, natDigits_length_two n (by omega) h]

theorem pad2_all_digit (n : Nat) : ∀ c ∈ pad2 n, isDigitC c = true := by
  unfold pad2
  by_cases h10 : n < 10
  · simp only [h10, if_true]
    intro c hc
    rcases List.mem_cons.mp hc with h1 | h2
    · subst h1; rfl
    · exact natDigits_all_digit n c h2
  · simp only [h10, if_false]
    exact natDigits_all_digit n

/-! ### Lemmas about list prefixes and the scanners -/

theorem isPrefixOf_nil_left (l : List Char) : List.isPrefixOf [] l = true := by
  cases l <;> rfl

theorem isPrefixOf_cons₂ (a b : Char) (as bs : List Char) :
    List.isPrefixOf (a :: as) (b :: bs) = (a == b && List.isPrefixOf as bs) := rfl

theorem isPrefixOf_cons_ne (p c : Char) (ps t : List Char) (h : p ≠ c) :
    List.isPrefixOf (p :: ps) (c :: t) = false := by
  rw [isPrefixOf_cons₂]
  simp [h]

theorem isPrefixOf_append_false (pat : List Char) :
    ∀ q r, pat.isPrefixOf q = false → pat.length ≤ q.length →
      pat.isPrefixOf (q ++ r) = false := by
  induction pat with
  | nil => intro q r h _; rw [isPrefixOf_nil_left] at h; exact absurd h (by simp)
  | cons p ps ih =>
    intro q r h hlen
    cases q with
    | nil => simp at hlen
    | cons b bs =>
      rw [isPrefixOf_cons₂] at h
      rw [List.cons_append, isPrefixOf_cons₂]
      rcases Bool.and_eq_false_iff.mp h with h1 | h2
      · simp [h1]
      · rw [ih bs r h2 (by simpa using hlen)]
        simp

theorem isPrefixOf_self_append (pat r : List Char) :
    pat.isPrefixOf (pat ++ r) = true := by
  induction pat with
  | nil => exact isPrefixOf_nil_left r
  | cons p ps ih => rw [List.cons_append, isPrefixOf_cons₂, ih]; simp

theorem eq_append_drop_of_isPrefixOf (pat : List Char) :
    ∀ l, pat.isPrefixOf l = true → l = pat ++ l.drop pat.length := by
  induction pat with
  | nil => intro l _; simp
  | cons p ps ih =>
    intro l h
    cases l with
    | nil => simp [List.isPrefixOf] at h
    | cons b bs =>
      rw [isPrefixOf_cons₂, Bool.and_eq_true] at h
      obtain ⟨h1, h2⟩ := h
      have hpb : p = b := by simpa using h1
      subst hpb
      show p :: bs = p :: (ps ++ bs.drop ps.length)
      rw [← ih bs h2]

theorem isDigitC_ne_F (c : Char) (h : isDigitC c = true) : c ≠ 'F' := by
  intro he
  subst he
  exact absurd h (by decide)

theorem untilLit_noF : ∀ c ∈ untilLit, c ≠ 'F' := by decide

/-! ### takeDigits lemmas -/

theorem takeDigits_append (d z : List Char) (hdig : ∀ c ∈ d, isDigitC c = true) :
    takeDigits d.length (d ++ z) = some (d, z) := by
  induction d with
  | nil => rfl
  | cons c t ih =>
    have hc : isDigitC c = true := hdig c (List.mem_cons_self c t)
    show takeDigits (t.length + 1) (c :: (t ++ z)) = some (c :: t, z)
    simp only [takeDigits, hc, if_true]
    rw [ih (fun x hx => hdig x (List.mem_cons_of_mem c hx))]
    rfl

theorem takeDigits_sound (n : Nat) :
    ∀ l d r, takeDigits n l = some (d, r) →
      l = d ++ r ∧ d.length = n ∧ ∀ c ∈ d, isDigitC c = true := by
  induction n with
  | zero =>
    intro l d r h
    simp only [takeDigits, Option.some.injEq, Prod.mk.injEq] at h
    obtain ⟨h1, h2⟩ := h
    subst h1; subst h2
    exact ⟨rfl, rfl, by simp⟩
  | succ n ih =>
    intro l d r h
    cases l with
    | nil => simp [takeDigits] at h
    | cons c t =>
      by_cases hc : isDigitC c
      · simp only [takeDigits, hc, if_true] at h
        cases ht : takeDigits n t with
        | none => rw [ht] at h; simp at h
        | some pr =>
          obtain ⟨d', r'⟩ := pr
          rw [ht] at h
          simp only [Option.map_some', Option.some.injEq, Prod.mk.injEq] at h
          obtain ⟨hd, hr⟩ := h
          obtain ⟨h1, h2, h3⟩ := ih t d' r' ht
          subst hd; subst hr
          refine ⟨by rw [List.cons_append, ← h1], by simp [h2], ?_⟩
          intro x hx
          rcases List.mem_cons.mp hx with hx | hx
          · subst hx; exact hc
          · exact h3 x hx
      · simp [takeDigits, hc] at h

theorem takeDigits_isSome_of_prefixOf (n : Nat) :
    ∀ (u w : List Char), n ≤ u.length → (∀ c ∈ u, isDigitC c = true) →
      (takeDigits n (u ++ w)).isSome = true := by
  induction n with
  | zero => intros; rfl
  | succ n ih =>
    intro u w hlen hdig
    cases u with
    | nil => simp at hlen
    | cons c t =>
      show (takeDigits (n + 1) (c :: (t ++ w))).isSome = true
      simp only [takeDigits, hdig c (List.mem_cons_self c t), if_true]
      have := ih t w (by simpa using hlen) (fun x hx => hdig x (List.mem_cons_of_mem c hx))
      cases h : takeDigits n (t ++ w) with
      | none => rw [h] at this; simp at this
      | some pr => simp

theorem takeDigits_isSome_congr (d e : List Char) (m : Nat)
    (hd : d.length = m) (he : e.length = m)
    (hdd : ∀ c ∈ d, isDigitC c = true) (hee : ∀ c ∈ e, isDigitC c = true) :
    ∀ (x : List Char) (w z : List Char) (n : Nat), n ≤ x.length + m →
      (takeDigits n (x ++ d ++ w)).isSome = (takeDigits n (x ++ e ++ z)).isSome := by
  intro x
  induction x with
  | nil =>
    intro w z n hn
    simp only [List.nil_append, List.length_nil, Nat.zero_add] at hn ⊢
    rw [takeDigits_isSome_of_prefixOf n d w (by omega) hdd,
      takeDigits_isSome_of_prefixOf n e z (by omega) hee]
  | cons c x' ih =>
    intro w z n hn
    cases n with
    | zero => rfl
    | succ n =>
      show (takeDigits (n + 1) (c :: (x' ++ d ++ w))).isSome
        = (takeDigits (n + 1) (c :: (x' ++ e ++ z))).isSome
      by_cases hc : isDigitC c
      · simp only [takeDigits, hc, if_true]
        have := ih w z n (by simp at hn ⊢; omega)
        cases h1 : takeDigits n (x' ++ d ++ w) <;>
          cases h2 : takeDigits n (x' ++ e ++ z) <;> simp_all
      · simp [takeDigits, hc]

/-! ### Leftmost-match lemmas for the UNTIL and FREQ scanners -/

theorem untilAt_sound (l d8 rest : List Char) (h : untilAt l = some (d8, rest)) :
    l = untilLit ++ d8 ++ rest ∧ d8.length = 8 ∧ ∀ c ∈ d8, isDigitC c = true := by
  unfold untilAt at h
  by_cases hp : untilLit.isPrefixOf l
  · rw [if_pos hp] at h
    obtain ⟨h1, h2, h3⟩ := takeDigits_sound 8 (l.drop 6) d8 rest h
    refine ⟨?_, h2, h3⟩
    have heq := eq_append_drop_of_isPrefixOf untilLit l hp
    rw [heq]
    show untilLit ++ l.drop 6 = untilLit ++ (d8 ++ rest)
    rw [h1]
  · rw [if_neg hp] at h
    exact absurd h (by simp)

theorem untilSplit_sound :
    ∀ (s pre d8 rest : List Char), untilSplit s = some (pre, d8, rest) →
      s = pre ++ untilLit ++ d8 ++ rest ∧ d8.length = 8 ∧
        ∀ c ∈ d8, isDigitC c = true := by
  intro s
  induction s with
  | nil => intro pre d8 rest h; simp [untilSplit] at h
  | cons c t ih =>
    intro pre d8 rest h
    unfold untilSplit at h
    cases ha : untilAt (c :: t) with
    | some pr =>
      obtain ⟨a, b⟩ := pr
      rw [ha] at h
      simp only [Option.some.injEq, Prod.mk.injEq] at h
      obtain ⟨rfl, rfl, rfl⟩ := h
      obtain ⟨h1, h2, h3⟩ := untilAt_sound (c :: t) a b ha
      exact ⟨by simpa using h1, h2, h3⟩
    | none =>
      rw [ha] at h
      cases hs : untilSplit t with
      | none => rw [hs] at h; simp at h
      | some pr =>
        obtain ⟨p1, p2, p3⟩ := pr
        rw [hs] at h
        simp only [Option.map_some', Option.some.injEq, Prod.mk.injEq] at h
        obtain ⟨rfl, rfl, rfl⟩ := h
        obtain ⟨h1, h2, h3⟩ := ih p1 p2 p3 hs
        refine ⟨?_, h2, h3⟩
        rw [List.cons_append, List.cons_append, List.cons_append, ← h1]

theorem freqAt_eq_none_of_ne (c : Char) (t : List Char) (h : c ≠ 'F') :
    freqAt (c :: t) = none := by
  have h1 : (lit "FREQ=DAILY").isPrefixOf (c :: t) = false :=
    isPrefixOf_cons_ne 'F' c _ _ (Ne.symm h)
  have h2 : (lit "FREQ=WEEKLY").isPrefixOf (c :: t) = false :=
    isPrefixOf_cons_ne 'F' c _ _ (Ne.symm h)
  have h3 : (lit "FREQ=MONTHLY").isPrefixOf (c :: t) = false :=
    isPrefixOf_cons_ne 'F' c _ _ (Ne.symm h)
  have h4 : (lit "FREQ=YEARLY").isPrefixOf (c :: t) = false :=
    isPrefixOf_cons_ne 'F' c _ _ (Ne.symm h)
  unfold freqAt
  rw [h1, h2, h3, h4]
  simp

theorem isPrefixOf_through_u (pat : List Char) (hU : 'U' ∉ pat) :
    ∀ l x y, pat.isPrefixOf (l ++ 'U' :: x) = pat.isPrefixOf (l ++ 'U' :: y) := by
  induction pat with
  | nil => intro l x y; rw [isPrefixOf_nil_left, isPrefixOf_nil_left]
  | cons p ps ih =>
    intro l x y
    have hp : p ≠ 'U' := fun hh => hU (hh ▸ List.mem_cons_self p ps)
    have hps : 'U' ∉ ps := fun hh => hU (List.mem_cons_of_mem p hh)
    cases l with
    | nil =>
      simp only [List.nil_append]
      rw [isPrefixOf_cons_ne p 'U' ps x hp, isPrefixOf_cons_ne p 'U' ps y hp]
    | cons a l' =>
      simp only [List.cons_append, isPrefixOf_cons₂]
      rw [ih hps l' x y]

theorem freqAt_congr_u (l x y : List Char) :
    freqAt (l ++ 'U' :: x) = freqAt (l ++ 'U' :: y) := by
  unfold freqAt
  rw [isPrefixOf_through_u (lit "FREQ=DAILY") (by decide) l x y,
      isPrefixOf_through_u (lit "FREQ=WEEKLY") (by decide) l x y,
      isPrefixOf_through_u (lit "FREQ=MONTHLY") (by decide) l x y,
      isPrefixOf_through_u (lit "FREQ=YEARLY") (by decide) l x y]

theorem findFreq_cons (c : Char) (t : List Char) :
    findFreq (c :: t) = match freqAt (c :: t) with
      | some f => some f
      | none => findFreq t := rfl

theorem findFreq_append_noF (b : List Char) (hb : ∀ c ∈ b, c ≠ 'F')
    (post : List Char) : findFreq (b ++ post) = findFreq post := by
  induction b with
  | nil => rfl
  | cons c t ih =>
    show findFreq (c :: (t ++ post)) = findFreq post
    rw [findFreq_cons, freqAt_eq_none_of_ne c (t ++ post) (hb c (List.mem_cons_self c t))]
    exact ih (fun x hx => hb x (List.mem_cons_of_mem c hx))

theorem findFreq_block_congr (bx bY post : List Char)
    (hbx : ∀ c ∈ bx, c ≠ 'F') (hby : ∀ c ∈ bY, c ≠ 'F')
    (hxu : ∃ bx', bx = 'U' :: bx') (hyu : ∃ bY', bY = 'U' :: bY') :
    ∀ pre, findFreq (pre ++ bx ++ post) = findFreq (pre ++ bY ++ post) := by
  obtain ⟨bx', rfl⟩ := hxu
  obtain ⟨bY', rfl⟩ := hyu
  intro pre
  induction pre with
  | nil =>
    simp only [List.nil_append]
    rw [findFreq_append_noF _ hbx post, findFreq_append_noF _ hby post]
  | cons c pre' ih =>
    have hassoc : ∀ b' : List Char,
        (c :: pre') ++ ('U' :: b') ++ post = c :: (pre' ++ 'U' :: (b' ++ post)) := by
      intro b'
      simp [List.append_assoc]
    rw [hassoc bx', hassoc bY', findFreq_cons, findFreq_cons]
    have hcong : freqAt (c :: (pre' ++ 'U' :: (bx' ++ post)))
        = freqAt (c :: (pre' ++ 'U' :: (bY' ++ post))) := by
      have := freqAt_congr_u (c :: pre') (bx' ++ post) (bY' ++ post)
      simpa using this
    rw [hcong]
    cases h : freqAt (c :: (pre' ++ 'U' :: (bY' ++ post))) with
    | some f => simp
    | none => simpa [List.append_assoc] using ih

theorem isPrefixOf_eq_beq_take (pat : List Char) :
    ∀ l, pat.isPrefixOf l = (l.take pat.length == pat) := by
  induction pat with
  | nil => intro l; rw [isPrefixOf_nil_left]; rfl
  | cons p ps ih =>
    intro l
    cases l with
    | nil => rfl
    | cons b bs =>
      rw [isPrefixOf_cons₂, ih bs]
      show (p == b && bs.take ps.length == ps)
        = (b :: bs.take ps.length == p :: ps)
      show (p == b && bs.take ps.length == ps)
        = (b == p && bs.take ps.length == ps)
      by_cases hpb : p = b
      · subst hpb; rfl
      · have hbp : b ≠ p := fun hh => hpb hh.symm
        rw [beq_eq_false_iff_ne.mpr hpb, beq_eq_false_iff_ne.mpr hbp]

theorem isPrefixOf_append_pat_congr (pat l t₁ t₂ : List Char) :
    pat.isPrefixOf (l ++ pat ++ t₁) = pat.isPrefixOf (l ++ pat ++ t₂) := by
  rw [isPrefixOf_eq_beq_take, isPrefixOf_eq_beq_take]
  have key : ∀ t : List Char, (l ++ pat ++ t).take pat.length
      = l.take pat.length ++ pat.take (pat.length - l.length) := by
    intro t
    rw [List.append_assoc, List.take_append_eq_append_take,
      List.take_append_eq_append_take]
    have hz : pat.length - l.length - pat.length = 0 := by omega
    rw [hz, List.take_zero, List.append_nil]
  rw [key t₁, key t₂]

theorem untilLit_length : untilLit.length = 6 := rfl

theorem untilAt_none_congr (d e : List Char)
    (hd : d.length = 8) (he : e.length = 8)
    (hdd : ∀ c ∈ d, isDigitC c = true) (hee : ∀ c ∈ e, isDigitC c = true)
    (l w z : List Char)
    (h : untilAt (l ++ untilLit ++ d ++ w) = none) :
    untilAt (l ++ untilLit ++ e ++ z) = none := by
  have hpre : untilLit.isPrefixOf (l ++ untilLit ++ d ++ w)
      = untilLit.isPrefixOf (l ++ untilLit ++ e ++ z) := by
    have h1 := isPrefixOf_append_pat_congr untilLit l (d ++ w) (e ++ z)
    simpa [List.append_assoc] using h1
  have hdrop : ∀ u v : List Char, (l ++ untilLit ++ u ++ v).drop 6
      = ((l ++ untilLit).drop 6) ++ (u ++ v) := by
    intro u v
    rw [show l ++ untilLit ++ u ++ v = (l ++ untilLit) ++ (u ++ v) by
      simp [List.append_assoc]]
    rw [List.drop_append_eq_append_drop]
    have hz : 6 - (l ++ untilLit).length = 0 := by
      rw [List.length_append, untilLit_length]; omega
    rw [hz, List.drop_zero]
  unfold untilAt at h ⊢
  by_cases hp : untilLit.isPrefixOf (l ++ untilLit ++ d ++ w)
  · rw [if_pos hp, hdrop d w] at h
    rw [if_pos (hpre ▸ hp), hdrop e z]
    have hcongr := takeDigits_isSome_congr d e 8 hd he hdd hee
      ((l ++ untilLit).drop 6) w z 8 (by omega)
    rw [show (l ++ untilLit).drop 6 ++ d ++ w
        = ((l ++ untilLit).drop 6) ++ (d ++ w) by simp [List.append_assoc],
      show (l ++ untilLit).drop 6 ++ e ++ z
        = ((l ++ untilLit).drop 6) ++ (e ++ z) by simp [List.append_assoc]] at hcongr
    cases hgoal : takeDigits 8 (((l ++ untilLit).drop 6) ++ (e ++ z)) with
    | none => rfl
    | some pr =>
      rw [h, hgoal] at hcongr
      simp at hcongr
  · rw [if_neg (fun hh => hp (by rw [hpre]; exact hh))]

theorem untilSplit_cons (c : Char) (t : List Char) :
    untilSplit (c :: t) = match untilAt (c :: t) with
      | some (d8, rest) => some ([], d8, rest)
      | none => (untilSplit t).map (fun pr => (c :: pr.1, pr.2.1, pr.2.2)) := rfl

theorem untilSplit_shift (d8 e8 : List Char)
    (hd : d8.length = 8) (hdd : ∀ c ∈ d8, isDigitC c = true)
    (he : e8.length = 8) (hee : ∀ c ∈ e8, isDigitC c = true) :
    ∀ (pre w z : List Char),
      untilSplit (pre ++ untilLit ++ d8 ++ w) = some (pre, d8, w) →
      untilSplit (pre ++ untilLit ++ e8 ++ z) = some (pre, e8, z) := by
  intro pre
  induction pre with
  | nil =>
    intro w z _
    have h1 : untilAt (untilLit ++ (e8 ++ z)) = some (e8, z) := by
      unfold untilAt
      rw [if_pos (isPrefixOf_self_append untilLit (e8 ++ z))]
      have hdrop : (untilLit ++ (e8 ++ z)).drop 6 = e8 ++ z := rfl
      rw [hdrop, ← he]
      exact takeDigits_append e8 z hee
    have hform : ([] : List Char) ++ untilLit ++ e8 ++ z = untilLit ++ (e8 ++ z) := by
      simp [List.append_assoc]
    rw [hform]
    have hcons : untilLit ++ (e8 ++ z) = 'U' :: (lit "NTIL=" ++ (e8 ++ z)) := rfl
    rw [hcons] at h1 ⊢
    rw [untilSplit_cons, h1]
  | cons c pre' ih =>
    intro w z h
    have hconsd : (c :: pre') ++ untilLit ++ d8 ++ w
        = c :: (pre' ++ untilLit ++ d8 ++ w) := by simp
    have hconse : (c :: pre') ++ untilLit ++ e8 ++ z
        = c :: (pre' ++ untilLit ++ e8 ++ z) := by simp
    rw [hconsd] at h
    rw [hconse, untilSplit_cons]
    rw [untilSplit_cons] at h
    cases ha : untilAt (c :: (pre' ++ untilLit ++ d8 ++ w)) with
    | some pr =>
      obtain ⟨a, b⟩ := pr
      rw [ha] at h
      simp at h
    | none =>
      rw [ha] at h
      have ha' : untilAt (c :: (pre' ++ untilLit ++ e8 ++ z)) = none := by
        have := untilAt_none_congr d8 e8 hd he hdd hee (c :: pre') w z
          (by simpa [List.append_assoc] using ha)
        simpa [List.append_assoc] using this
      rw [ha']
      cases hs : untilSplit (pre' ++ untilLit ++ d8 ++ w) with
      | none => rw [hs] at h; simp at h
      | some pr =>
        obtain ⟨p1, p2, p3⟩ := pr
        rw [hs] at h
        simp only [Option.map_some', Option.some.injEq, Prod.mk.injEq] at h
        obtain ⟨h1, h2, h3⟩ := h
        have hp1 : p1 = pre' := by
          have := congrArg List.tail h1
          simpa using this
        rw [hp1, h2, h3] at hs
        rw [ih w z hs]
        rfl

theorem replaceUntilOpt_of_none (repl : List Char) :
    ∀ s, untilSplit s = none → replaceUntilOpt repl s = s := by
  intro s
  induction s with
  | nil => intro _; rfl
  | cons c t ih =>
    intro h
    rw [untilSplit_cons] at h
    cases ha : untilAt (c :: t) with
    | some pr =>
      obtain ⟨a, b⟩ := pr
      rw [ha] at h
      simp at h
    | none =>
      rw [ha] at h
      have ht : untilSplit t = none := by
        cases hs : untilSplit t with
        | none => rfl
        | some pr => rw [hs] at h; simp at h
      show (match untilAt (c :: t) with
        | some (_, rest) => repl ++ (optTimeSplit rest).2
        | none => c :: replaceUntilOpt repl t) = c :: t
      rw [ha, ih ht]

theorem replaceUntilOpt_of_some (repl : List Char) :
    ∀ s pre d8 rest, untilSplit s = some (pre, d8, rest) →
      replaceUntilOpt repl s = pre ++ repl ++ (optTimeSplit rest).2 := by
  intro s
  induction s with
  | nil => intro pre d8 rest h; simp [untilSplit] at h
  | cons c t ih =>
    intro pre d8 rest h
    rw [untilSplit_cons] at h
    cases ha : untilAt (c :: t) with
    | some pr =>
      obtain ⟨a, b⟩ := pr
      rw [ha] at h
      simp only [Option.some.injEq, Prod.mk.injEq] at h
      obtain ⟨rfl, rfl, rfl⟩ := h
      show (match untilAt (c :: t) with
        | some (_, rest) => repl ++ (optTimeSplit rest).2
        | none => c :: replaceUntilOpt repl t) = [] ++ repl ++ (optTimeSplit b).2
      rw [ha]
      simp
    | none =>
      rw [ha] at h
      cases hs : untilSplit t with
      | none => rw [hs] at h; simp at h
      | some pr =>
        obtain ⟨p1, p2, p3⟩ := pr
        rw [hs] at h
        simp only [Option.map_some', Option.some.injEq, Prod.mk.injEq] at h
        obtain ⟨rfl, rfl, rfl⟩ := h
        show (match untilAt (c :: t) with
          | some (_, rest) => repl ++ (optTimeSplit rest).2
          | none => c :: replaceUntilOpt repl t)
          = (c :: p1) ++ repl ++ (optTimeSplit p3).2
        rw [ha, ih p1 p2 p3 hs]
        simp

theorem optTimeSplit_append (rest : List Char) :
    (optTimeSplit rest).1 ++ (optTimeSplit rest).2 = rest := by
  unfold optTimeSplit
  split
  next r1 =>
    split
    next d6 r2 heq =>
      obtain ⟨h1, _, _⟩ := takeDigits_sound 6 r1 d6 ('Z' :: r2) heq
      simp [h1]
    next => simp
  next => simp

theorem optTimeSplit_noF (rest : List Char) :
    ∀ c ∈ (optTimeSplit rest).1, c ≠ 'F' := by
  unfold optTimeSplit
  split
  next r1 =>
    split
    next d6 r2 heq =>
      intro c hc
      obtain ⟨_, _, h3⟩ := takeDigits_sound 6 r1 d6 ('Z' :: r2) heq
      simp at hc
      rcases hc with rfl | hc | rfl
      · decide
      · exact isDigitC_ne_F c (h3 c hc)
      · decide
    next => intro c hc; simp at hc
  next => intro c hc; simp at hc

/-! ### Facts about jsSetFullYear and the capped replacement digits -/

theorem jsSetFullYear_year (d : JSDate) (y : Nat) : (jsSetFullYear d y).year = y := by
  unfold jsSetFullYear
  split <;> rfl

theorem jsSetFullYear_month_le (d : JSDate) (y : Nat) (h : d.month ≤ 12) :
    (jsSetFullYear d y).month ≤ 13 := by
  unfold jsSetFullYear
  split
  · simpa using Nat.le_trans h (by omega)
  · show d.month + 1 ≤ 13
    omega

theorem jsSetFullYear_day_le (d : JSDate) (y : Nat) (h : d.day ≤ 31) :
    (jsSetFullYear d y).day ≤ 31 := by
  unfold jsSetFullYear
  split
  · simpa using h
  · show d.day - daysInMonth y d.month ≤ 31
    omega

theorem validateAndCap_kept_no_freq (cfg : RecurrenceValidationConfig)
    (s : List Char) (t : JSDate) (hf : findFreq s = none) :
    (validateAndCap cfg s t).newPattern = s := by
  unfold validateAndCap
  rw [hf]

theorem validateAndCap_kept_no_until (cfg : RecurrenceValidationConfig)
    (s : List Char) (t : JSDate) (f : RFreq)
    (hf : findFreq s = some f) (hu : untilSplit s = none) :
    (validateAndCap cfg s t).newPattern = s := by
  unfold validateAndCap
  rw [hf, hu]

theorem validateAndCap_kept_small_span (cfg : RecurrenceValidationConfig)
    (s : List Char) (t : JSDate) (f : RFreq) (pre d8 rest : List Char)
    (hf : findFreq s = some f) (hu : untilSplit s = some (pre, d8, rest))
    (hspan : ¬((digitsToNat (d8.take 4) : Int) - (t.year : Int)
      > (capFor cfg f : Int))) :
    (validateAndCap cfg s t).newPattern = s := by
  unfold validateAndCap
  rw [hf, hu]
  simp only [if_neg hspan]

theorem validateAndCap_capped (cfg : RecurrenceValidationConfig)
    (s : List Char) (t : JSDate) (f : RFreq) (pre d8 rest : List Char)
    (hf : findFreq s = some f) (hu : untilSplit s = some (pre, d8, rest))
    (hspan : (digitsToNat (d8.take 4) : Int) - (t.year : Int)
      > (capFor cfg f : Int)) :
    (validateAndCap cfg s t).newPattern
      = replaceUntilOpt
          (untilLit ++ natDigits (jsSetFullYear t (t.year + capFor cfg f)).year
            ++ pad2 (jsSetFullYear t (t.year + capFor cfg f)).month
            ++ pad2 (jsSetFullYear t (t.year + capFor cfg f)).day
            ++ lit "T235959Z") s := by
  unfold validateAndCap
  rw [hf, hu]
  simp only [if_pos hspan]

/-- After a capping replacement, a second `validateAndCap` run keeps the string:
the replaced block changes neither the first frequency match nor the position
of the first `UNTIL` match, and the new span equals the cap exactly. -/
theorem vac_second_run_kept (cfg : RecurrenceValidationConfig) (t : JSDate)
    (f : RFreq) (pre d8 opt post e8 : List Char)
    (hd8len : d8.length = 8) (hd8dig : ∀ c ∈ d8, isDigitC c = true)
    (hoptF : ∀ c ∈ opt, c ≠ 'F')
    (he8len : e8.length = 8) (he8dig : ∀ c ∈ e8, isDigitC c = true)
    (hf : findFreq (pre ++ untilLit ++ d8 ++ (opt ++ post)) = some f)
    (hu : untilSplit (pre ++ untilLit ++ d8 ++ (opt ++ post))
      = some (pre, d8, opt ++ post))
    (hyearEq : digitsToNat (e8.take 4) = t.year + capFor cfg f) :
    (validateAndCap cfg (pre ++ untilLit ++ e8 ++ (lit "T235959Z" ++ post)) t).newPattern
      = pre ++ untilLit ++ e8 ++ (lit "T235959Z" ++ post) := by
  have hUL : untilLit = 'U' :: lit "NTIL=" := rfl
  have hbxF : ∀ c ∈ untilLit ++ d8 ++ opt, c ≠ 'F' := by
    intro c hc
    rcases List.mem_append.mp hc with hc | hc
    · rcases List.mem_append.mp hc with hc | hc
      · exact untilLit_noF c hc
      · exact isDigitC_ne_F c (hd8dig c hc)
    · exact hoptF c hc
  have hbyF : ∀ c ∈ untilLit ++ e8 ++ lit "T235959Z", c ≠ 'F' := by
    intro c hc
    rcases List.mem_append.mp hc with hc | hc
    · rcases List.mem_append.mp hc with hc | hc
      · exact untilLit_noF c hc
      · exact isDigitC_ne_F c (he8dig c hc)
    · exact (by decide : ∀ x ∈ lit "T235959Z", x ≠ 'F') c hc
  have hxu : ∃ bx', untilLit ++ d8 ++ opt = 'U' :: bx' := by
    refine ⟨lit "NTIL=" ++ d8 ++ opt, ?_⟩
    rw [hUL]
    simp [List.append_assoc]
  have hyu : ∃ bY', untilLit ++ e8 ++ lit "T235959Z" = 'U' :: bY' := by
    refine ⟨lit "NTIL=" ++ e8 ++ lit "T235959Z", ?_⟩
    rw [hUL]
    simp [List.append_assoc]
  have hfreq' : findFreq (pre ++ untilLit ++ e8 ++ (lit "T235959Z" ++ post))
      = some f := by
    have hcong := findFreq_block_congr (untilLit ++ d8 ++ opt)
      (untilLit ++ e8 ++ lit "T235959Z") post hbxF hbyF hxu hyu pre
    rw [show pre ++ (untilLit ++ d8 ++ opt) ++ post
          = pre ++ untilLit ++ d8 ++ (opt ++ post) by simp [List.append_assoc],
        show pre ++ (untilLit ++ e8 ++ lit "T235959Z") ++ post
          = pre ++ untilLit ++ e8 ++ (lit "T235959Z" ++ post) by
          simp [List.append_assoc]] at hcong
    rw [← hcong]
    exact hf
  have huntil' := untilSplit_shift d8 e8 hd8len hd8dig he8len he8dig pre
    (opt ++ post) (lit "T235959Z" ++ post) hu
  have hnospan : ¬((digitsToNat (e8.take 4) : Int) - (t.year : Int)
      > (capFor cfg f : Int)) := by
    rw [hyearEq]
    push_cast
    omega
  exact validateAndCap_kept_small_span cfg _ t f pre e8 (lit "T235959Z" ++ post)
    hfreq' huntil' hnospan

/-- C3 (amended): the validator `validateAndCap` is idempotent — applying it to
its own output returns that output unchanged — for every rule string, every
configuration, and every start instant with in-range calendar fields
(month ≤ 12, day ≤ 31) whose capped year `start.year + cap` has exactly four
decimal digits for each of the four frequency caps.  The unamended claim,
quantified over all start instants and drafts, is refuted by the accompanying
counterexample, in which a capped year below 1000 produces a seven-digit
`UNTIL` that the second run no longer recognizes, so the second run caps a
later `UNTIL` occurrence instead. -/
theorem c3_validateAndCap_idempotent (cfg : RecurrenceValidationConfig)
    (s : List Char) (t : JSDate)
    (hm : t.month ≤ 12) (hday : t.day ≤ 31) (hy : 1000 ≤ t.year)
    (hd9 : t.year + cfg.maxYearsDaily ≤ 9999)
    (hw9 : t.year + cfg.maxYearsWeekly ≤ 9999)
    (hmo9 : t.year + cfg.maxYearsMonthly ≤ 9999)
    (hy9 : t.year + cfg.maxYearsYearly ≤ 9999) :
    (validateAndCap cfg (validateAndCap cfg s t).newPattern t).newPattern
      = (validateAndCap cfg s t).newPattern := by
  cases hf : findFreq s with
  | none =>
    rw [validateAndCap_kept_no_freq cfg s t hf]
    exact validateAndCap_kept_no_freq cfg s t hf
  | some f =>
    cases hu : untilSplit s with
    | none =>
      rw [validateAndCap_kept_no_until cfg s t f hf hu]
      exact validateAndCap_kept_no_until cfg s t f hf hu
    | some pr =>
      obtain ⟨pre, d8, rest⟩ := pr
      by_cases hspan : (digitsToNat (d8.take 4) : Int) - (t.year : Int)
          > (capFor cfg f : Int)
      · obtain ⟨hs_eq, hd8len, hd8dig⟩ := untilSplit_sound s pre d8 rest hu
        have hcap9 : t.year + capFor cfg f ≤ 9999 := by
          cases f
          exacts [hd9, hw9, hmo9, hy9]
        rw [validateAndCap_capped cfg s t f pre d8 rest hf hu hspan,
          replaceUntilOpt_of_some _ s pre d8 rest hu]
        set ce : JSDate := jsSetFullYear t (t.year + capFor cfg f) with hce
        have hceY : ce.year = t.year + capFor cfg f := jsSetFullYear_year t _
        have hnd4 : (natDigits ce.year).length = 4 := by
          rw [hceY]
          exact natDigits_length_four _ (by omega) hcap9
        have hcem : ce.month ≤ 99 :=
          Nat.le_trans (jsSetFullYear_month_le t _ hm) (by omega)
        have hced : ce.day ≤ 99 :=
          Nat.le_trans (jsSetFullYear_day_le t _ hday) (by omega)
        have he8len : (natDigits ce.year ++ (pad2 ce.month ++ pad2 ce.day)).length
            = 8 := by
          rw [List.length_append, List.length_append, hnd4,
            pad2_length _ hcem, pad2_length _ hced]
        have he8dig : ∀ c ∈ natDigits ce.year ++ (pad2 ce.month ++ pad2 ce.day),
            isDigitC c = true := by
          intro c hc
          rcases List.mem_append.mp hc with hc | hc
          · exact natDigits_all_digit _ c hc
          · rcases List.mem_append.mp hc with hc | hc
            · exact pad2_all_digit _ c hc
            · exact pad2_all_digit _ c hc
        have htake : (natDigits ce.year ++ (pad2 ce.month ++ pad2 ce.day)).take 4
            = natDigits ce.year := by
          rw [← hnd4]
          exact List.take_left _ _
        have hyearEq : digitsToNat ((natDigits ce.year
            ++ (pad2 ce.month ++ pad2 ce.day)).take 4) = t.year + capFor cfg f := by
          rw [htake, digitsToNat_natDigits, hceY]
        have hopt := optTimeSplit_append rest
        have hu' : untilSplit (pre ++ untilLit ++ d8
            ++ ((optTimeSplit rest).1 ++ (optTimeSplit rest).2))
            = some (pre, d8, (optTimeSplit rest).1 ++ (optTimeSplit rest).2) := by
          rw [hopt, ← hs_eq]
          exact hu
        have hf' : findFreq (pre ++ untilLit ++ d8
            ++ ((optTimeSplit rest).1 ++ (optTimeSplit rest).2)) = some f := by
          rw [hopt, ← hs_eq]
          exact hf
        have key := vac_second_run_kept cfg t f pre d8 (optTimeSplit rest).1
          (optTimeSplit rest).2 (natDigits ce.year ++ (pad2 ce.month ++ pad2 ce.day))
          hd8len hd8dig (optTimeSplit_noF rest) he8len he8dig hf' hu' hyearEq
        have hstr : pre ++ (untilLit ++ natDigits ce.year ++ pad2 ce.month
              ++ pad2 ce.day ++ lit "T235959Z") ++ (optTimeSplit rest).2
            = pre ++ untilLit ++ (natDigits ce.year ++ (pad2 ce.month ++ pad2 ce.day))
              ++ (lit "T235959Z" ++ (optTimeSplit rest).2) := by
          simp [List.append_assoc]
        rw [hstr]
        exact key
      · rw [validateAndCap_kept_small_span cfg s t f pre d8 rest hf hu hspan]
        exact validateAndCap_kept_small_span cfg s t f pre d8 rest hf hu hspan

/-- C3 counterexample: the unamended idempotence claim is false.  With the
default configuration, a start instant in year 100 and a rule string with two
`UNTIL` fields, the first run caps the first `UNTIL` to `UNTIL=1050101T235959Z`
(a seven-digit date the scanner no longer matches), so the second run caps the
second `UNTIL` field and changes the string again. -/
theorem c3_idempotence_counterexample :
    (validateAndCap DEFAULT_CONFIG
      (validateAndCap DEFAULT_CONFIG
        (lit "RRULE;FREQ=DAILY;UNTIL=99990101;UNTIL=99990101")
        ⟨100, 1, 1⟩).newPattern ⟨100, 1, 1⟩).newPattern
    ≠ (validateAndCap DEFAULT_CONFIG
        (lit "RRULE;FREQ=DAILY;UNTIL=99990101;UNTIL=99990101")
        ⟨100, 1, 1⟩).newPattern := by
  decide

/-- C3 witness: the amended idempotence theorem applied at a concrete daily
rule with a far-future `UNTIL` and a start in 2020. -/
theorem c3_validateAndCap_idempotent_witness :
    (⟨2020, 1, 1⟩ : JSDate).month ≤ 12 ∧
    (validateAndCap DEFAULT_CONFIG
      (validateAndCap DEFAULT_CONFIG
        (lit "RRULE;FREQ=DAILY;UNTIL=21000101T235959Z")
        ⟨2020, 1, 1⟩).newPattern ⟨2020, 1, 1⟩).newPattern
    = (validateAndCap DEFAULT_CONFIG
        (lit "RRULE;FREQ=DAILY;UNTIL=21000101T235959Z")
        ⟨2020, 1, 1⟩).newPattern :=
  ⟨by decide,
    c3_validateAndCap_idempotent DEFAULT_CONFIG
      (lit "RRULE;FREQ=DAILY;UNTIL=21000101T235959Z") ⟨2020, 1, 1⟩
      (by decide) (by decide) (by decide) (by decide) (by decide) (by decide)
      (by decide)⟩

/-- C10: `validateAndCap` changes at most the `UNTIL` component.  For every
input rule string, configuration and start time, the result is either the
input string unchanged with `modified = false` and action `KEPT`, or the input
decomposes as `pre ++ UNTIL= ++ d8 ++ rest` at the first eight-digit `UNTIL`
and the output is the same string with only that `UNTIL` value (including a
directly following old `T......Z` suffix, which is `(optTimeSplit rest).1`)
replaced by the capped date carrying the `T235959Z` suffix; every character of
`pre` and of the remainder of `rest` is identical to the input. -/
theorem c10_validateAndCap_frame (cfg : RecurrenceValidationConfig)
    (s : List Char) (t : JSDate) :
    ((validateAndCap cfg s t).modified = false
      ∧ (validateAndCap cfg s t).action = VAction.KEPT
      ∧ (validateAndCap cfg s t).newPattern = s)
    ∨ (∃ f pre d8 rest,
        findFreq s = some f
        ∧ s = pre ++ untilLit ++ d8 ++ rest
        ∧ d8.length = 8
        ∧ (∀ c ∈ d8, isDigitC c = true)
        ∧ (optTimeSplit rest).1 ++ (optTimeSplit rest).2 = rest
        ∧ (validateAndCap cfg s t).modified = true
        ∧ (validateAndCap cfg s t).action = VAction.CAPPED
        ∧ (validateAndCap cfg s t).newPattern
            = pre ++ (untilLit
                ++ natDigits (jsSetFullYear t (t.year + capFor cfg f)).year
                ++ pad2 (jsSetFullYear t (t.year + capFor cfg f)).month
                ++ pad2 (jsSetFullYear t (t.year + capFor cfg f)).day
                ++ lit "T235959Z") ++ (optTimeSplit rest).2) := by
  cases hf : findFreq s with
  | none =>
    left
    unfold validateAndCap
    rw [hf]
    exact ⟨rfl, rfl, rfl⟩
  | some f =>
    cases hu : untilSplit s with
    | none =>
      left
      unfold validateAndCap
      rw [hf, hu]
      exact ⟨rfl, rfl, rfl⟩
    | some pr =>
      obtain ⟨pre, d8, rest⟩ := pr
      obtain ⟨hs_eq, hd8len, hd8dig⟩ := untilSplit_sound s pre d8 rest hu
      by_cases hspan : (digitsToNat (d8.take 4) : Int) - (t.year : Int)
          > (capFor cfg f : Int)
      · right
        refine ⟨f, pre, d8, rest, rfl, hs_eq, hd8len, hd8dig,
          optTimeSplit_append rest, ?_, ?_, ?_⟩
        · unfold validateAndCap
          rw [hf, hu]
          simp only [if_pos hspan]
        · unfold validateAndCap
          rw [hf, hu]
          simp only [if_pos hspan]
        · rw [validateAndCap_capped cfg s t f pre d8 rest hf hu hspan,
            replaceUntilOpt_of_some _ s pre d8 rest hu]
      · left
        refine ⟨?_, ?_,
          validateAndCap_kept_small_span cfg s t f pre d8 rest hf hu hspan⟩
        · unfold validateAndCap
          rw [hf, hu]
          simp only [if_neg hspan]
        · unfold validateAndCap
          rw [hf, hu]
          simp only [if_neg hspan]

/-- C4: every descriptor with `occurrenceCount = 1` is stripped: with the
single-occurrence stripping enabled (as it is in the default configuration),
`validateRecurrencePattern` returns "no recurrence" for every rule input, and
hence the whole engine (build then validate) emits no recurrence, regardless
of frequency and end condition. -/
theorem c4_single_occurrence_strip (cfg : RecurrenceValidationConfig)
    (p : RecurrencePattern) (t : JSDate)
    (hstrip : cfg.stripSingleOccurrence = true)
    (hocc : p.occurrenceCount = some 1) :
    (∀ rrule : Option (List Char), validateRecurrencePattern cfg p t rrule = none)
    ∧ engineRRule cfg p t = none := by
  have hmain : ∀ r : Option (List Char), validateRecurrencePattern cfg p t r = none := by
    intro r
    cases r with
    | none => rfl
    | some rr =>
      unfold validateRecurrencePattern
      rw [hstrip, hocc]
      simp
  exact ⟨hmain, hmain _⟩

/-- C4 witness: a concrete weekly descriptor with `occurrenceCount = 1` and an
AfterCount end condition is stripped by the engine under the default
configuration. -/
theorem c4_single_occurrence_strip_witness :
    DEFAULT_CONFIG.stripSingleOccurrence = true ∧
    engineRRule DEFAULT_CONFIG
      ⟨8203, 1, 0, PatternTypeSpecific.null, 8226, none, some 1⟩
      ⟨2022, 1, 1⟩ = none :=
  ⟨by decide,
    (c4_single_occurrence_strip DEFAULT_CONFIG
      ⟨8203, 1, 0, PatternTypeSpecific.null, 8226, none, some 1⟩
      ⟨2022, 1, 1⟩ rfl rfl).2⟩

/-- C9 counterexample: the validator's result is not a function of the
per-call arguments alone.  The same rule string and start instant produce
different results under the default configuration state and under the state
installed by `setConfig (maxYearsDaily := 200)` — the caps table is a
process-wide mutable singleton, not an explicitly passed per-call argument. -/
theorem c9_hidden_state_counterexample :
    (validateAndCap DEFAULT_CONFIG
      (lit "RRULE;FREQ=DAILY;UNTIL=21000101T235959Z") ⟨2020, 1, 1⟩).newPattern
    ≠ (validateAndCap (setConfig { maxYearsDaily := some 200 })
        (lit "RRULE;FREQ=DAILY;UNTIL=21000101T235959Z") ⟨2020, 1, 1⟩).newPattern := by
  decide

/-- C9 (amended): the engine is deterministic given the rule text, the start
instant and the current configuration state, but that state is a module-level
singleton installed by `setConfig`, which merges the caller's partial
overrides into the fixed defaults Daily 5 / Weekly 10 / Monthly 20 /
Yearly 100; each field is overridable and falls back to its default. -/
theorem c9_config_defaults_and_override (pc : PartialValidationConfig) :
    DEFAULT_CONFIG.maxYearsDaily = 5 ∧ DEFAULT_CONFIG.maxYearsWeekly = 10
    ∧ DEFAULT_CONFIG.maxYearsMonthly = 20 ∧ DEFAULT_CONFIG.maxYearsYearly = 100
    ∧ (setConfig pc).maxYearsDaily = pc.maxYearsDaily.getD 5
    ∧ (setConfig pc).maxYearsWeekly = pc.maxYearsWeekly.getD 10
    ∧ (setConfig pc).maxYearsMonthly = pc.maxYearsMonthly.getD 20
    ∧ (setConfig pc).maxYearsYearly = pc.maxYearsYearly.getD 100
    ∧ setConfig {} = DEFAULT_CONFIG :=
  ⟨rfl, rfl, rfl, rfl, rfl, rfl, rfl, rfl, rfl⟩

/-! ### Syntactic families of the builder's rule parts -/

theorem isPrefixOf_trans :
    ∀ (a b l : List Char), a.isPrefixOf b = true → b.isPrefixOf l = true →
      a.isPrefixOf l = true := by
  intro a
  induction a with
  | nil => intro b l _ _; exact isPrefixOf_nil_left l
  | cons x a' ih =>
    intro b l hab hbl
    cases b with
    | nil => simp [List.isPrefixOf] at hab
    | cons y b' =>
      rw [isPrefixOf_cons₂, Bool.and_eq_true] at hab
      obtain ⟨hxy, hab'⟩ := hab
      cases l with
      | nil => simp [List.isPrefixOf] at hbl
      | cons z l' =>
        rw [isPrefixOf_cons₂, Bool.and_eq_true] at hbl
        obtain ⟨hyz, hbl'⟩ := hbl
        rw [isPrefixOf_cons₂]
        have hxz : x = z := by
          have h1 : x = y := by simpa using hxy
          have h2 : y = z := by simpa using hyz
          rw [h1, h2]
        rw [hxz]
        simp [ih b' l' hab' hbl']

theorem not_prefix_append_of_sub (pat smallPat q tl : List Char)
    (hsp : smallPat.isPrefixOf pat = true)
    (hq : smallPat.isPrefixOf q = false)
    (hlen : smallPat.length ≤ q.length) :
    pat.isPrefixOf (q ++ tl) = false := by
  cases h : pat.isPrefixOf (q ++ tl) with
  | false => rfl
  | true =>
    have htr := isPrefixOf_trans smallPat pat (q ++ tl) hsp h
    rw [isPrefixOf_append_false smallPat q tl hq hlen] at htr
    exact absurd htr (by simp)

theorem freqPart_shape (p : RecurrencePattern) :
    (freqPart p).1 = lit "FREQ=DAILY" ∨ (freqPart p).1 = lit "FREQ=WEEKLY"
    ∨ (freqPart p).1 = lit "FREQ=MONTHLY" ∨ (freqPart p).1 = lit "FREQ=YEARLY" := by
  unfold freqPart
  split_ifs <;> simp

theorem intervalParts_shape (p : RecurrencePattern) :
    ∀ x ∈ intervalParts p, ∃ tl, x = lit "INTERVAL=" ++ tl := by
  intro x hx
  unfold intervalParts at hx
  split_ifs at hx <;> simp_all <;> exact ⟨_, hx⟩

theorem shapeParts_shape (p : RecurrencePattern) (t : JSDate) (yf : Bool) :
    ∀ x ∈ shapeParts p t yf,
      (∃ tl, x = lit "BYDAY=" ++ tl) ∨ (∃ tl, x = lit "BYMONTH=" ++ tl)
      ∨ (∃ tl, x = lit "BYMONTHDAY=" ++ tl) := by
  intro x hx
  unfold shapeParts at hx
  repeat' split at hx
  all_goals simp_all
  all_goals try (obtain ⟨-, hx⟩ := hx)
  all_goals try (rcases hx with hx | hx)
  all_goals subst_vars
  all_goals simp

theorem append_assoc5 (a b c d e : List Char) :
    a ++ b ++ c ++ d ++ e = a ++ (b ++ (c ++ (d ++ e))) := by
  simp [List.append_assoc]

theorem sanitizedUntilPart_shape (cfg : RecurrenceValidationConfig)
    (p : RecurrencePattern) (t : JSDate) (ed : JSDate) :
    ∃ tl, sanitizedUntilPart cfg p t ed = lit "UNTIL=" ++ tl := by
  unfold sanitizedUntilPart
  exact ⟨_, append_assoc5 (lit "UNTIL=") _ _ _ _⟩

theorem endParts_shape (cfg : RecurrenceValidationConfig) (p : RecurrencePattern)
    (t : JSDate) :
    ∀ x ∈ endParts cfg p t,
      (∃ tl, x = lit "COUNT=" ++ tl) ∨ (∃ tl, x = lit "UNTIL=" ++ tl) := by
  obtain ⟨freq, period, ptype, pspec, etype, edate, occ⟩ := p
  intro x hx
  unfold endParts at hx
  try dsimp only at hx
  by_cases h25 : (etype == 8225) = true
  · rw [if_pos h25] at hx
    cases edate with
    | none => simp at hx
    | some ed =>
      try dsimp only at hx
      cases occ with
      | none =>
        try dsimp only at hx
        simp at hx
        right
        rw [hx]
        exact sanitizedUntilPart_shape cfg _ t ed
      | some c =>
        try dsimp only at hx
        split at hx
        · simp at hx
          left
          exact ⟨_, hx⟩
        · simp at hx
          right
          rw [hx]
          exact sanitizedUntilPart_shape cfg _ t ed
  · rw [if_neg h25] at hx
    by_cases h26 : (etype == 8226) = true
    · rw [if_pos h26] at hx
      cases occ with
      | none => simp at hx
      | some c =>
        try dsimp only at hx
        split at hx
        · simp at hx
          left
          exact ⟨_, hx⟩
        · simp at hx
    · rw [if_neg h26] at hx
      simp at hx

theorem buildRRuleParts_shape (cfg : RecurrenceValidationConfig)
    (p : RecurrencePattern) (t : JSDate) :
    ∀ x ∈ buildRRuleParts cfg p t,
      x = lit "RRULE"
      ∨ (x = lit "FREQ=DAILY" ∨ x = lit "FREQ=WEEKLY"
          ∨ x = lit "FREQ=MONTHLY" ∨ x = lit "FREQ=YEARLY")
      ∨ (∃ tl, x = lit "INTERVAL=" ++ tl)
      ∨ ((∃ tl, x = lit "BYDAY=" ++ tl) ∨ (∃ tl, x = lit "BYMONTH=" ++ tl)
          ∨ (∃ tl, x = lit "BYMONTHDAY=" ++ tl))
      ∨ ((∃ tl, x = lit "COUNT=" ++ tl) ∨ (∃ tl, x = lit "UNTIL=" ++ tl)) := by
  intro x hx
  unfold buildRRuleParts at hx
  simp only [List.cons_append, List.nil_append, List.mem_cons, List.mem_append] at hx
  rcases hx with rfl | rfl | (hx | hx) | hx
  · left; rfl
  · right; left; exact freqPart_shape p
  · right; right; left; exact intervalParts_shape p x hx
  · right; right; right; left; exact shapeParts_shape p t _ x hx
  · right; right; right; right; exact endParts_shape cfg p t x hx

theorem c5_endParts_count (cfg : RecurrenceValidationConfig) (p : RecurrencePattern)
    (t : JSDate) (ed : JSDate) (c : Nat)
    (hend : p.endType = 8225) (hdate : p.endDate = some ed)
    (hyear : ed.year < 1900) (hocc : p.occurrenceCount = some c)
    (h2 : 2 ≤ c) (h50 : c ≤ 50) :
    endParts cfg p t = [lit "COUNT=" ++ natDigits c] := by
  have hc0 : c ≠ 0 := by omega
  have hc1 : 1 < c := by omega
  unfold endParts
  rw [hend, hdate, hocc]
  simp [hyear, hc0, hc1, h50]

/-- C5: count preference.  For every descriptor with `endType = AfterDate`,
a corrupted end date (year < 1900) and an `occurrenceCount` in `[2, 50]`, the
builder's end block is exactly `COUNT=<occurrenceCount>`, that `COUNT` part is
among the rule's parts, and no part of the rule starts with `UNTIL=` — the
rule uses `COUNT` and carries no `UNTIL`. -/
theorem c5_count_preference (cfg : RecurrenceValidationConfig)
    (p : RecurrencePattern) (t : JSDate) (ed : JSDate) (c : Nat)
    (hend : p.endType = 8225) (hdate : p.endDate = some ed)
    (hyear : ed.year < 1900) (hocc : p.occurrenceCount = some c)
    (h2 : 2 ≤ c) (h50 : c ≤ 50) :
    (lit "COUNT=" ++ natDigits c) ∈ buildRRuleParts cfg p t
    ∧ ∀ x ∈ buildRRuleParts cfg p t, untilLit.isPrefixOf x = false := by
  have hend' := c5_endParts_count cfg p t ed c hend hdate hyear hocc h2 h50
  constructor
  · unfold buildRRuleParts
    rw [hend']
    simp
  · intro x hx
    unfold buildRRuleParts at hx
    rw [hend'] at hx
    simp only [List.cons_append, List.nil_append, List.mem_cons, List.mem_append] at hx
    rcases hx with rfl | rfl | (hx | hx) | hx
    · decide
    · rcases freqPart_shape p with h | h | h | h <;> rw [h] <;> decide
    · obtain ⟨tl, rfl⟩ := intervalParts_shape p x hx
      exact not_prefix_append_of_sub untilLit (lit "U") (lit "INTERVAL=") tl
        (by decide) (by decide) (by decide)
    · rcases shapeParts_shape p t _ x hx with ⟨tl, rfl⟩ | ⟨tl, rfl⟩ | ⟨tl, rfl⟩
      · exact not_prefix_append_of_sub untilLit (lit "U") (lit "BYDAY=") tl
          (by decide) (by decide) (by decide)
      · exact not_prefix_append_of_sub untilLit (lit "U") (lit "BYMONTH=") tl
          (by decide) (by decide) (by decide)
      · exact not_prefix_append_of_sub untilLit (lit "U") (lit "BYMONTHDAY=") tl
          (by decide) (by decide) (by decide)
    · rcases hx with rfl | hx
      · exact not_prefix_append_of_sub untilLit (lit "U") (lit "COUNT=")
          (natDigits c) (by decide) (by decide) (by decide)
      · simp at hx

/-- C5 witness: a weekly descriptor with corrupted end date 1600-03-04 and
`occurrenceCount = 4` yields `COUNT=4` among the rule parts. -/
theorem c5_count_preference_witness :
    (2 : Nat) ≤ 4 ∧
    (lit "COUNT=" ++ natDigits 4) ∈ buildRRuleParts DEFAULT_CONFIG
      ⟨8203, 1, 0, PatternTypeSpecific.null, 8225, some ⟨1600, 3, 4⟩, some 4⟩
      ⟨2022, 1, 1⟩ :=
  ⟨by decide,
    (c5_count_preference DEFAULT_CONFIG
      ⟨8203, 1, 0, PatternTypeSpecific.null, 8225, some ⟨1600, 3, 4⟩, some 4⟩
      ⟨2022, 1, 1⟩ ⟨1600, 3, 4⟩ 4 rfl rfl (by decide) rfl (by decide) (by decide)).1⟩

/-- C6 counterexample: the claim fixes only the end date's year (1600), but
the builder's capped `UNTIL` keeps the corrupted end date's month and day, so
a descriptor with end date 1600-06-15 yields `UNTIL=20270615T235959Z`, not the
claimed `FREQ=DAILY;UNTIL=20270101T235959Z` (with or without the serialized
`RRULE;` head). -/
theorem c6_exact_output_counterexample :
    engineRRule DEFAULT_CONFIG
      ⟨8202, 1440, 0, PatternTypeSpecific.null, 8225, some ⟨1600, 6, 15⟩, none⟩
      ⟨2022, 1, 1⟩ = some (lit "RRULE;FREQ=DAILY;UNTIL=20270615T235959Z")
    ∧ engineRRule DEFAULT_CONFIG
        ⟨8202, 1440, 0, PatternTypeSpecific.null, 8225, some ⟨1600, 6, 15⟩, none⟩
        ⟨2022, 1, 1⟩ ≠ some (lit "FREQ=DAILY;UNTIL=20270101T235959Z")
    ∧ engineRRule DEFAULT_CONFIG
        ⟨8202, 1440, 0, PatternTypeSpecific.null, 8225, some ⟨1600, 6, 15⟩, none⟩
        ⟨2022, 1, 1⟩ ≠ some (lit "RRULE;FREQ=DAILY;UNTIL=20270101T235959Z") := by
  decide

/-- C6 (amended): for the Daily descriptor of an event starting 2022-01-01
with `intervalRaw = 1440`, `endCondition = AfterDate`, end date 1600-01-01
(the corrupted date whose month and day the cap preserves) and no
`occurrenceCount`, the engine's output is the serialized `RRULE;` head
followed by exactly `FREQ=DAILY;UNTIL=20270101T235959Z` — capped to five
years, with the end-of-day time suffix and no `INTERVAL` field. -/
theorem c6_exact_output_amended :
    engineRRule DEFAULT_CONFIG
      ⟨8202, 1440, 0, PatternTypeSpecific.null, 8225, some ⟨1600, 1, 1⟩, none⟩
      ⟨2022, 1, 1⟩
    = some (lit "RRULE;" ++ lit "FREQ=DAILY;UNTIL=20270101T235959Z") := by
  decide

/-- C1 (code bug, failing input): a Yearly descriptor (frequency 8205) with a
Week pattern shape (patternType 1, Monday flagged) passes through the build
and validate stages and produces `RRULE;FREQ=YEARLY;BYDAY=MO` — a yearly rule
carrying `BYDAY` but no `BYMONTH`, contradicting the claimed invariant (and
the builder's own RFC 5545 comments, which add `BYMONTH` only in the
month-based pattern cases 2, 3 and 4). -/
theorem c1_yearly_byday_missing_bymonth :
    engineRRule DEFAULT_CONFIG
      ⟨8205, 12, 1,
        PatternTypeSpecific.weekdays [false, true, false, false, false, false, false],
        8227, none, none⟩
      ⟨2023, 5, 10⟩ = some (lit "RRULE;FREQ=YEARLY;BYDAY=MO")
    ∧ containsL (lit "BYDAY=") (lit "RRULE;FREQ=YEARLY;BYDAY=MO") = true
    ∧ containsL (lit "BYMONTH=") (lit "RRULE;FREQ=YEARLY;BYDAY=MO") = false := by
  decide

/-- C2 (code bug, failing input): the structured path (build then validate)
for a corrupted Daily descriptor with `intervalRaw = 4320` (three days in
minutes), end date 1600-01-01 and start 2022-01-01 produces
`RRULE;FREQ=DAILY;INTERVAL=3;UNTIL=20270101T235959Z`; running the Textual
Repair Pass on that same string re-interprets the already-converted
`INTERVAL=3` as minutes (`floor(3 / 1440) = 0`) and deletes it, so the repair
output is not byte-identical to the structured result. -/
theorem c2_repair_not_roundtrip :
    engineRRule DEFAULT_CONFIG
      ⟨8202, 4320, 0, PatternTypeSpecific.null, 8225, some ⟨1600, 1, 1⟩, none⟩
      ⟨2022, 1, 1⟩
      = some (lit "RRULE;FREQ=DAILY;INTERVAL=3;UNTIL=20270101T235959Z")
    ∧ repairRecurrencePattern (lit "2022-01-01")
        (lit "RRULE;FREQ=DAILY;INTERVAL=3;UNTIL=20270101T235959Z")
      = lit "RRULE;FREQ=DAILY;UNTIL=20270101T235959Z"
    ∧ repairRecurrencePattern (lit "2022-01-01")
        (lit "RRULE;FREQ=DAILY;INTERVAL=3;UNTIL=20270101T235959Z")
      ≠ lit "RRULE;FREQ=DAILY;INTERVAL=3;UNTIL=20270101T235959Z" := by
  decide

theorem shapeParts_shape_not_yearly (p : RecurrencePattern) (t : JSDate) :
    ∀ x ∈ shapeParts p t false,
      (∃ tl, x = lit "BYDAY=" ++ tl) ∨ (∃ tl, x = lit "BYMONTHDAY=" ++ tl) := by
  intro x hx
  unfold shapeParts at hx
  repeat' split at hx
  all_goals simp_all
  all_goals try (obtain ⟨-, hx⟩ := hx)
  all_goals subst_vars
  all_goals simp

/-- C7 counterexample: the claim that an unknown frequency falls back to
Daily "with no shape modifiers" is false — a descriptor with frequency 9999
and a Month pattern shape (patternType 2, day 15) still emits
`BYMONTHDAY=15`, producing `RRULE;FREQ=DAILY;BYMONTHDAY=15`. -/
theorem c7_unknown_frequency_counterexample :
    engineRRule DEFAULT_CONFIG
      ⟨9999, 1, 2, PatternTypeSpecific.num 15, 8227, none, none⟩
      ⟨2022, 1, 1⟩ = some (lit "RRULE;FREQ=DAILY;BYMONTHDAY=15")
    ∧ (lit "BYMONTHDAY=" ++ natDigits 15) ∈ buildRRuleParts DEFAULT_CONFIG
        ⟨9999, 1, 2, PatternTypeSpecific.num 15, 8227, none, none⟩
        ⟨2022, 1, 1⟩ := by
  decide

/-- C7 (amended): `build` is total (it is a function, never an error) and a
descriptor whose frequency code is none of 8202, 8203, 8204, 8205 falls back
to `FREQ=DAILY` — the frequency part of the rule is `FREQ=DAILY` and the
yearly flag is off — and never carries a `BYMONTH` entry; however the shape
modifiers `BYDAY`/`BYMONTHDAY` from the pattern shape are still emitted (the
counterexample shows one), which is the only respect in which the original
claim fails. -/
theorem c7_unknown_frequency_fallback (cfg : RecurrenceValidationConfig)
    (p : RecurrencePattern) (t : JSDate)
    (h1 : p.recurFrequency ≠ 8202) (h2 : p.recurFrequency ≠ 8203)
    (h3 : p.recurFrequency ≠ 8204) (h4 : p.recurFrequency ≠ 8205) :
    freqPart p = (lit "FREQ=DAILY", false)
    ∧ (buildRRuleParts cfg p t).get? 1 = some (lit "FREQ=DAILY")
    ∧ ∀ x ∈ buildRRuleParts cfg p t, (lit "BYMONTH=").isPrefixOf x = false := by
  have hfp : freqPart p = (lit "FREQ=DAILY", false) := by
    unfold freqPart
    simp [h1, h2, h3, h4]
  refine ⟨hfp, ?_, ?_⟩
  · simp [buildRRuleParts, hfp]
  · intro x hx
    unfold buildRRuleParts at hx
    simp only [List.cons_append, List.nil_append, List.mem_cons, List.mem_append] at hx
    rcases hx with rfl | rfl | (hx | hx) | hx
    · decide
    · rw [hfp]
      decide
    · obtain ⟨tl, rfl⟩ := intervalParts_shape p x hx
      exact not_prefix_append_of_sub (lit "BYMONTH=") (lit "B") (lit "INTERVAL=")
        tl (by decide) (by decide) (by decide)
    · rw [hfp] at hx
      have hx' : x ∈ shapeParts p t false := hx
      rcases shapeParts_shape_not_yearly p t x hx' with ⟨tl, rfl⟩ | ⟨tl, rfl⟩
      · exact not_prefix_append_of_sub (lit "BYMONTH=") (lit "BYM") (lit "BYDAY=")
          tl (by decide) (by decide) (by decide)
      · exact not_prefix_append_of_sub (lit "BYMONTH=") (lit "BYMONTH=")
          (lit "BYMONTHDAY=") tl (by decide) (by decide) (by decide)
    · rcases endParts_shape cfg p t x hx with ⟨tl, rfl⟩ | ⟨tl, rfl⟩
      · exact not_prefix_append_of_sub (lit "BYMONTH=") (lit "B") (lit "COUNT=")
          tl (by decide) (by decide) (by decide)
      · exact not_prefix_append_of_sub (lit "BYMONTH=") (lit "B") (lit "UNTIL=")
          tl (by decide) (by decide) (by decide)

/-- C7 witness: the amended fallback theorem applied at the frequency-9999
descriptor of the counterexample. -/
theorem c7_unknown_frequency_fallback_witness :
    (⟨9999, 1, 2, PatternTypeSpecific.num 15, 8227, none, none⟩
      : RecurrencePattern).recurFrequency ≠ 8202
    ∧ (buildRRuleParts DEFAULT_CONFIG
        ⟨9999, 1, 2, PatternTypeSpecific.num 15, 8227, none, none⟩
        ⟨2022, 1, 1⟩).get? 1 = some (lit "FREQ=DAILY") :=
  ⟨by decide,
    (c7_unknown_frequency_fallback DEFAULT_CONFIG
      ⟨9999, 1, 2, PatternTypeSpecific.num 15, 8227, none, none⟩
      ⟨2022, 1, 1⟩ (by decide) (by decide) (by decide) (by decide)).2.1⟩

theorem splitOnLit_sound (pat : List Char) (hne : pat ≠ []) :
    ∀ s pre post, splitOnLit pat s = some (pre, post) →
      s = pre ++ pat ++ post := by
  intro s
  induction s with
  | nil =>
    intro pre post h
    unfold splitOnLit at h
    rw [if_neg (by simpa using hne)] at h
    exact absurd h (by simp)
  | cons c t ih =>
    intro pre post h
    unfold splitOnLit at h
    by_cases hp : pat.isPrefixOf (c :: t)
    · rw [if_pos hp] at h
      simp only [Option.some.injEq, Prod.mk.injEq] at h
      obtain ⟨rfl, rfl⟩ := h
      have := eq_append_drop_of_isPrefixOf pat (c :: t) hp
      simpa using this
    · rw [if_neg hp] at h
      cases hs : splitOnLit pat t with
      | none => rw [hs] at h; simp at h
      | some pr =>
        obtain ⟨p1, p2⟩ := pr
        rw [hs] at h
        simp only [Option.map_some', Option.some.injEq, Prod.mk.injEq] at h
        obtain ⟨rfl, rfl⟩ := h
        rw [List.cons_append, List.cons_append, ← ih p1 p2 hs]

theorem containsL_splitOnLit (pat : List Char) :
    ∀ s, containsL pat s = true → (splitOnLit pat s).isSome = true := by
  intro s
  induction s with
  | nil =>
    intro h
    unfold containsL at h
    unfold splitOnLit
    rw [if_pos h]
    rfl
  | cons c t ih =>
    intro h
    unfold containsL at h
    unfold splitOnLit
    by_cases hp : pat.isPrefixOf (c :: t)
    · rw [if_pos hp]
      rfl
    · rw [if_neg hp]
      have ht : containsL pat t = true := by
        rcases Bool.or_eq_true_iff.mp h with ha | hb
        · exact absurd ha hp
        · exact hb
      have hsome := ih ht
      cases hs : splitOnLit pat t with
      | none => rw [hs] at hsome; simp at hsome
      | some pr => simp

/-- C8: yearly interval elision.  (a) A Yearly descriptor (frequency 8205)
with `intervalRaw = 12` yields no `INTERVAL` from the builder: its interval
block is empty and no part of the rule starts with `INTERVAL`.  (b) The
repair pass's yearly-interval rule strips `INTERVAL=12` from any rule string
containing `FREQ=YEARLY`: such a string decomposes at the first `INTERVAL=12`
occurrence, and `yearlyInterval12Fix` removes that occurrence (together with
one directly following semicolon, then collapsing double semicolons). -/
theorem c8_yearly_interval_elision (cfg : RecurrenceValidationConfig)
    (p : RecurrencePattern) (t : JSDate)
    (hfreq : p.recurFrequency = 8205) (hper : p.period = 12) :
    (intervalParts p = []
      ∧ ∀ x ∈ buildRRuleParts cfg p t, (lit "INTERVAL").isPrefixOf x = false)
    ∧ ∀ s : List Char, containsL (lit "FREQ=YEARLY") s = true →
        containsL (lit "INTERVAL=12") s = true →
        ∃ pre post, s = pre ++ lit "INTERVAL=12" ++ post
          ∧ yearlyInterval12Fix s = collapseDoubleSemi (pre ++ dropOneSemi post) := by
  have hint : intervalParts p = [] := by
    unfold intervalParts
    rw [hfreq, hper]
    simp
  refine ⟨⟨hint, ?_⟩, ?_⟩
  · intro x hx
    unfold buildRRuleParts at hx
    rw [hint] at hx
    simp only [List.cons_append, List.nil_append, List.mem_cons, List.mem_append,
      List.append_nil] at hx
    rcases hx with rfl | rfl | hx | hx
    · decide
    · rcases freqPart_shape p with h | h | h | h <;> rw [h] <;> decide
    · rcases shapeParts_shape p t _ x hx with ⟨tl, rfl⟩ | ⟨tl, rfl⟩ | ⟨tl, rfl⟩
      · exact not_prefix_append_of_sub (lit "INTERVAL") (lit "I") (lit "BYDAY=")
          tl (by decide) (by decide) (by decide)
      · exact not_prefix_append_of_sub (lit "INTERVAL") (lit "I") (lit "BYMONTH=")
          tl (by decide) (by decide) (by decide)
      · exact not_prefix_append_of_sub (lit "INTERVAL") (lit "I")
          (lit "BYMONTHDAY=") tl (by decide) (by decide) (by decide)
    · rcases endParts_shape cfg p t x hx with ⟨tl, rfl⟩ | ⟨tl, rfl⟩
      · exact not_prefix_append_of_sub (lit "INTERVAL") (lit "I") (lit "COUNT=")
          tl (by decide) (by decide) (by decide)
      · exact not_prefix_append_of_sub (lit "INTERVAL") (lit "I") (lit "UNTIL=")
          tl (by decide) (by decide) (by decide)
  · intro s hY h12
    obtain ⟨pr, hsp⟩ := Option.isSome_iff_exists.mp (containsL_splitOnLit _ s h12)
    obtain ⟨pre, post⟩ := pr
    refine ⟨pre, post, splitOnLit_sound _ (by decide) s pre post hsp, ?_⟩
    unfold yearlyInterval12Fix
    rw [hY, h12, if_pos (by decide : ((true && true) = true)), hsp]

/-- C8 witness: the elision theorem applied at a concrete Yearly descriptor
with a twelve-month raw interval. -/
theorem c8_yearly_interval_elision_witness :
    (⟨8205, 12, 2, PatternTypeSpecific.num 13, 8227, none, none⟩
      : RecurrencePattern).period = 12
    ∧ intervalParts ⟨8205, 12, 2, PatternTypeSpecific.num 13, 8227, none, none⟩
      = [] :=
  ⟨rfl,
    ((c8_yearly_interval_elision DEFAULT_CONFIG
      ⟨8205, 12, 2, PatternTypeSpecific.num 13, 8227, none, none⟩
      ⟨2020, 6, 13⟩ rfl rfl).1).1⟩

end FixECal
